import Mathlib

/-!
Verification of the boomgame entity-simulation core.

Shallow embedding of the model code (`model/timer.py`, `model/vector.py`,
`model/entity.py`, `model/maze.py`) over exact rational arithmetic: Python
floats are modelled as rationals, Python `int` as `Int`/`Nat`. Definitions
mirror the source functions; theorems settle the specification claims.
-/

/-! ## Timer (model/timer.py)

`Timer.__init__(increase)` keeps `increase`, `is_active`, `total`, `current`.
`start` raises `RuntimeError` when already active (modelled with `Except`).
`update` returns the done-flag and mutates `current`; it is a no-op returning
`False` when inactive. -/

structure Timer where
  increase : Bool
  is_active : Bool
  total : ℚ
  current : ℚ
deriving DecidableEq, Repr

/-- Timer.__init__: inactive, total 0.0, current 0.0. -/
def Timer.init (increase : Bool) : Timer :=
  { increase := increase, is_active := false, total := 0, current := 0 }

/-- Timer.is_done: `self.increase and self.current >= self.total or
not self.increase and self.current <= 0`, `False` when inactive. -/
def Timer.is_done (t : Timer) : Bool :=
  if t.is_active = false then false
  else (t.increase && decide (t.total ≤ t.current)) || (!t.increase && decide (t.current ≤ 0))

/-- Timer.start: raises when already active; otherwise activates with the
given total, `current` starting at `0` (count-up) or `total` (count-down). -/
def Timer.start (t : Timer) (total : ℚ) : Except String Timer :=
  if t.is_active then Except.error "Timer already active"
  else Except.ok { t with is_active := true, total := total,
                          current := if t.increase then 0 else total }

/-- Convenience used where the source calls `start` on a spot where the timer
is statically known to be inactive (the error branch is unreachable there). -/
def Timer.startOr (t : Timer) (total : ℚ) : Timer :=
  match t.start total with
  | Except.ok t' => t'
  | Except.error _ => t

/-- Timer.update: no-op returning `False` when inactive; otherwise advance
`current` by `±delay` and report done-ness. -/
def Timer.update (t : Timer) (delay : ℚ) : Bool × Timer :=
  if t.is_active = false then (false, t)
  else if t.increase then
    let t' := { t with current := t.current + delay }
    (decide (t'.total ≤ t'.current), t')
  else
    let t' := { t with current := t.current - delay }
    (decide (t'.current ≤ 0), t')

/-- Timer.reset: deactivate unconditionally. -/
def Timer.reset (t : Timer) : Timer := { t with is_active := false }

/-- The state of a fresh count-down timer right after `start(total)`. -/
def Timer.startedCountdown (total : ℚ) : Timer :=
  { increase := false, is_active := true, total := total, current := total }

/-- A sequence of `update` calls, keeping only the final timer state. -/
def Timer.runUpdates (t : Timer) (ds : List ℚ) : Timer :=
  ds.foldl (fun t d => (t.update d).2) t

theorem Timer.start_init_countdown (total : ℚ) :
    (Timer.init false).start total = Except.ok (Timer.startedCountdown total) := rfl

theorem Timer.update_is_active (t : Timer) (d : ℚ) :
    (t.update d).2.is_active = t.is_active := by
  unfold Timer.update
  by_cases h : t.is_active = false <;> by_cases h2 : t.increase <;> simp [h, h2]

theorem Timer.update_increase (t : Timer) (d : ℚ) :
    (t.update d).2.increase = t.increase := by
  unfold Timer.update
  by_cases h : t.is_active = false <;> by_cases h2 : t.increase <;> simp [h, h2]

theorem Timer.update_current_active (t : Timer) (d : ℚ) (h : t.is_active = true)
    (hi : t.increase = false) : (t.update d).2.current = t.current - d := by
  unfold Timer.update
  simp [h, hi]

theorem Timer.runUpdates_countdown (ds : List ℚ) : ∀ t : Timer,
    t.is_active = true → t.increase = false →
    (t.runUpdates ds).is_active = true ∧ (t.runUpdates ds).increase = false ∧
    (t.runUpdates ds).current = t.current - ds.sum := by
  induction ds with
  | nil => intro t ha hi; simpa [Timer.runUpdates] using ⟨ha, hi⟩
  | cons d ds ih =>
    intro t ha hi
    have step : Timer.runUpdates t (d :: ds) = Timer.runUpdates (t.update d).2 ds := by
      simp [Timer.runUpdates]
    have ha' : (t.update d).2.is_active = true := by rw [Timer.update_is_active]; exact ha
    have hi' : (t.update d).2.increase = false := by rw [Timer.update_increase]; exact hi
    obtain ⟨h1, h2, h3⟩ := ih (t.update d).2 ha' hi'
    refine ⟨step ▸ h1, step ▸ h2, ?_⟩
    rw [step, h3, Timer.update_current_active t d ha hi]
    simp [List.sum_cons]
    ring

/-- C2: For every total ≥ 0, a count-down Timer freshly started via
`start(total)` has `current == total`; `is_done == False` holds only for
`total > 0` (amended: at `total = 0` the fresh count-down timer is already
done, since `is_done` tests `current <= 0`).  After update calls with
non-negative delays summing to exactly `total`, `is_done == True`; `update`
on an inactive timer returns `False` and leaves every field unchanged; and
`start` on an already-active timer raises an error. -/
theorem C2_timer_countdown (total d : ℚ) (ds : List ℚ) (t : Timer) :
    (0 < total →
      (Timer.init false).start total = Except.ok (Timer.startedCountdown total) ∧
      (Timer.startedCountdown total).current = total ∧
      (Timer.startedCountdown total).is_done = false) ∧
    (0 ≤ total → (∀ x ∈ ds, 0 ≤ x) → ds.sum = total →
      ((Timer.startedCountdown total).runUpdates ds).is_done = true) ∧
    (t.is_active = false → t.update d = (false, t)) ∧
    (t.is_active = true → t.start total = Except.error "Timer already active") := by
  refine ⟨?_, ?_, ?_, ?_⟩
  · intro hpos
    refine ⟨rfl, rfl, ?_⟩
    simp only [Timer.is_done, Timer.startedCountdown]
    simp [not_le.2 hpos]
  · intro _ _ hsum
    obtain ⟨h1, h2, h3⟩ := Timer.runUpdates_countdown ds (Timer.startedCountdown total) rfl rfl
    simp only [Timer.is_done, h1, h2, h3]
    simp [Timer.startedCountdown, hsum]
  · intro h
    simp [Timer.update, h]
  · intro h
    simp [Timer.start, h]

/-- C2 counterexample: at `total = 0` (which satisfies `total ≥ 0`), the
freshly started count-down timer already reports `is_done == True`,
contradicting the claim's `is_done == False` for every `total ≥ 0`. -/
theorem C2_cex :
    (0:ℚ) ≤ 0 ∧
    (Timer.init false).start 0 = Except.ok (Timer.startedCountdown 0) ∧
    (Timer.startedCountdown 0).current = 0 ∧
    (Timer.startedCountdown 0).is_done = true := by
  refine ⟨le_refl 0, rfl, rfl, by decide⟩

/-- Witness for C2: concrete run at `total = 2`, delays `[1, 1]`, an inactive
count-up timer, and an active count-down timer. -/
theorem C2_witness :
    ((Timer.init false).start 2 = Except.ok (Timer.startedCountdown 2) ∧
      (Timer.startedCountdown 2).current = 2 ∧
      (Timer.startedCountdown 2).is_done = false) ∧
    ((Timer.startedCountdown 2).runUpdates [1, 1]).is_done = true ∧
    (Timer.init true).update 5 = (false, Timer.init true) ∧
    (Timer.startedCountdown 2).start 3 = Except.error "Timer already active" := by
  have h1 := C2_timer_countdown 2 5 [1, 1] (Timer.init true)
  have h2 := C2_timer_countdown 3 5 [1, 1] (Timer.startedCountdown 2)
  exact ⟨h1.1 (by norm_num),
         (h1.2.1 (by norm_num) (by intro x hx; simp at hx; norm_num [hx])
           (by norm_num)),
         h1.2.2.1 rfl,
         h2.2.2.2 rfl⟩

/-! ## Damage and Entity.hit (model/entity.py, class Damage / Entity)

`Entity.hit` refuses damage while the removing timer is active or when the
damage type is not among the entity's vulnerabilities; otherwise it clamps
health at 0 and enters the removing state when health reaches 0.  The
removing timer's activity is modelled by the flag `removing_active`; the
score-collector bookkeeping (a side set not involved in the claims) is
omitted. -/

inductive DamageType where
  | ENEMIES
  | BOMBS
deriving DecidableEq, Repr

structure Damage where
  damage : ℤ
  type : DamageType
deriving DecidableEq, Repr

structure Entity where
  health : ℤ
  removing_active : Bool
  vulnerabilities : List DamageType
deriving DecidableEq, Repr

/-- Entity.hit: `False` when already removing or the damage type is not a
vulnerability; otherwise `health = max(0, health - damage.damage)` and
`removing()` (removing-timer start) when health hits 0. -/
def Entity.hit (s : Entity) (d : Damage) : Bool × Entity :=
  if s.removing_active then (false, s)
  else if d.type ∉ s.vulnerabilities then (false, s)
  else
    let s1 : Entity := { s with health := max 0 (s.health - d.damage) }
    let s2 : Entity := if s1.health = 0 then { s1 with removing_active := true } else s1
    (true, s2)

/-- A sequence of `hit` calls, keeping the final entity state. -/
def Entity.hits (s : Entity) (ds : List Damage) : Entity :=
  ds.foldl (fun s d => (s.hit d).2) s

theorem Entity.hit_health_nonneg (s : Entity) (d : Damage) (h : 0 ≤ s.health) :
    0 ≤ (s.hit d).2.health := by
  unfold Entity.hit
  by_cases h1 : s.removing_active
  · simpa [h1] using h
  · by_cases h2 : d.type ∉ s.vulnerabilities
    · simpa [h1, h2] using h
    · by_cases h3 : max 0 (s.health - d.damage) = 0 <;> simp [h1, h2, h3, le_max_left]

/-- C3: `Entity.hit` returns `False` and leaves the state unchanged when the
damage type is not in the vulnerability set, and when the removing timer is
already active; and after any sequence of hits starting from non-negative
health, health stays non-negative. -/
theorem C3_entity_hit (s : Entity) (d : Damage) (ds : List Damage) :
    (d.type ∉ s.vulnerabilities → s.hit d = (false, s)) ∧
    (s.removing_active = true → s.hit d = (false, s)) ∧
    (0 ≤ s.health → 0 ≤ (s.hits ds).health) := by
  refine ⟨?_, ?_, ?_⟩
  · intro h
    unfold Entity.hit
    by_cases h1 : s.removing_active <;> simp [h1, h]
  · intro h
    unfold Entity.hit
    simp [h]
  · induction ds generalizing s with
    | nil => intro h; simpa [Entity.hits] using h
    | cons d0 ds ih =>
      intro h
      have step : Entity.hits s (d0 :: ds) = Entity.hits (s.hit d0).2 ds := by
        simp [Entity.hits]
      rw [step]
      exact ih _ (Entity.hit_health_nonneg s d0 h)

/-- Witness for C3 at a concrete entity and damage list. -/
theorem C3_witness :
    (Entity.hit ⟨5, false, [DamageType.BOMBS]⟩ ⟨3, DamageType.ENEMIES⟩ =
      (false, ⟨5, false, [DamageType.BOMBS]⟩)) ∧
    (Entity.hit ⟨5, true, [DamageType.BOMBS]⟩ ⟨3, DamageType.BOMBS⟩ =
      (false, ⟨5, true, [DamageType.BOMBS]⟩)) ∧
    0 ≤ (Entity.hits ⟨5, false, [DamageType.BOMBS]⟩
          [⟨3, DamageType.BOMBS⟩, ⟨9, DamageType.BOMBS⟩]).health := by
  refine ⟨?_, ?_, ?_⟩
  · exact (C3_entity_hit ⟨5, false, [DamageType.BOMBS]⟩ ⟨3, DamageType.ENEMIES⟩ []).1
      (by decide)
  · exact (C3_entity_hit ⟨5, true, [DamageType.BOMBS]⟩ ⟨3, DamageType.BOMBS⟩ []).2.1 rfl
  · exact (C3_entity_hit ⟨5, false, [DamageType.BOMBS]⟩ ⟨3, DamageType.BOMBS⟩
      [⟨3, DamageType.BOMBS⟩, ⟨9, DamageType.BOMBS⟩]).2.2 (by decide)

/-! ## Laser strength and damage (model/entity.py, class Laser)

`Laser.__init__` receives the strength computed by `generate_from_bomb`, but
`USE_STRENGTH` is `False` for `Laser`, so the constructor overwrites the
strength with `1.0` before computing `damage = int(DAMAGE * strength)`. -/

def Laser.DAMAGE : ℤ := 13

def Laser.USE_STRENGTH : Bool := false

/-- Python `int()` truncation toward zero on an exact rational. -/
def pyInt (q : ℚ) : ℤ := if 0 ≤ q then ⌊q⌋ else -⌊-q⌋

/-- The damage computed in Laser.__init__ from the strength argument. -/
def Laser.damageOf (strength : ℚ) : ℤ :=
  let s : ℚ := if Laser.USE_STRENGTH then strength else 1
  pyInt ((Laser.DAMAGE : ℚ) * s)

/-- The strength passed for a direction laser at distance `dist` from a bomb
of radius `radius` in Laser.generate_from_bomb:
`alpha = dist / radius; strength = 0.5 * alpha + (1 - alpha)`. -/
def laserStrength (dist radius : ℕ) : ℚ :=
  let alpha : ℚ := (dist : ℚ) / (radius : ℚ)
  0.5 * alpha + (1 - alpha)

/-- The strength passed for the CENTER laser in Laser.generate_from_bomb. -/
def Laser.CENTER_STRENGTH : ℚ := 1

/-- C1 (amended): the CENTER laser is created with strength 1.0 regardless of
the radius, the direction laser at `dist` is created with strength
`0.5*alpha + (1-alpha)`, and for `R > 1` the strength argument at `dist = 1`
is strictly greater than at `dist = R`; but because `Laser.USE_STRENGTH` is
`False`, every laser's damage is `int(13 * 1.0) = 13`, so the `dist = 1`
laser does NOT deal strictly more damage than the `dist = R` laser. -/
theorem C1_laser_strength (R dist : ℕ) (h1 : 1 ≤ dist) (h2 : dist ≤ R) (hR : 1 < R) :
    Laser.CENTER_STRENGTH = 1 ∧
    laserStrength 1 R > laserStrength R R ∧
    Laser.damageOf (laserStrength dist R) = 13 ∧
    Laser.damageOf Laser.CENTER_STRENGTH = 13 := by
  have hR0 : (0 : ℚ) < (R : ℚ) := by positivity
  have hR1 : (1 : ℚ) < (R : ℚ) := by exact_mod_cast hR
  refine ⟨rfl, ?_, ?_, ?_⟩
  · unfold laserStrength
    rw [gt_iff_lt]
    rw [div_self (ne_of_gt hR0)]
    have key : (0.5 : ℚ) * ((1 : ℚ) / (R : ℚ)) < 0.5 := by
      rw [mul_one_div]
      rw [div_lt_iff hR0]
      nlinarith
    have hpos : (0 : ℚ) < 1 - 1 / (R : ℚ) := by
      rw [sub_pos, div_lt_iff hR0]
      nlinarith
    push_cast
    nlinarith [key, hpos]
  · unfold Laser.damageOf Laser.USE_STRENGTH Laser.DAMAGE pyInt
    norm_num
  · unfold Laser.damageOf Laser.USE_STRENGTH Laser.DAMAGE pyInt
    norm_num

/-- C1 counterexample: for a radius-2 bomb, the strength argument at dist 1
(3/4) is strictly greater than at dist 2 (1/2), yet both lasers deal exactly
the same damage 13, refuting "deals strictly more damage". -/
theorem C1_cex :
    laserStrength 1 2 = 3 / 4 ∧ laserStrength 2 2 = 1 / 2 ∧
    laserStrength 1 2 > laserStrength 2 2 ∧
    Laser.damageOf (laserStrength 1 2) = 13 ∧
    Laser.damageOf (laserStrength 2 2) = 13 := by
  refine ⟨?_, ?_, ?_, ?_, ?_⟩ <;> norm_num [laserStrength, Laser.damageOf, Laser.USE_STRENGTH, Laser.DAMAGE, pyInt]

/-- Witness for C1 at radius 3, dist 2. -/
theorem C1_witness :
    Laser.CENTER_STRENGTH = 1 ∧
    laserStrength 1 3 > laserStrength 3 3 ∧
    Laser.damageOf (laserStrength 2 3) = 13 ∧
    Laser.damageOf Laser.CENTER_STRENGTH = 13 :=
  C1_laser_strength 3 2 (by norm_num) (by norm_num) (by norm_num)

/-! ## Player.hit (model/entity.py, class Player)

`Player.hit` returns `False` immediately while the shield timer is active;
otherwise it defers to `Entity.hit` with the player's vulnerability set
`[BOMBS, ENEMIES]`, and starts the 1-second hit shield when the player
survives.  Fields not touched by `hit` (score, bombs, movement) are omitted
from this projection of the player state. -/

def Player.HIT_SHIELD : ℚ := 1

def Player.VULNERABILITIES : List DamageType := [DamageType.BOMBS, DamageType.ENEMIES]

structure Player where
  health : ℤ
  removing_active : Bool
  shield : Timer
deriving DecidableEq, Repr

/-- Player.hit: shield check, then `super().hit(damage)`, then the hit
shield when health is non-zero.  (`shield.start` cannot fail on this path
since the shield was just checked inactive; `Timer.startOr` marks that.) -/
def Player.hit (s : Player) (d : Damage) : Bool × Player :=
  if s.shield.is_active then (false, s)
  else
    let e : Entity := { health := s.health, removing_active := s.removing_active,
                        vulnerabilities := Player.VULNERABILITIES }
    let r := e.hit d
    if r.1 = false then (false, s)
    else
      let s1 : Player := { s with health := r.2.health, removing_active := r.2.removing_active }
      if s1.health ≠ 0 then (true, { s1 with shield := s1.shield.startOr Player.HIT_SHIELD })
      else (true, s1)

/-- C10: while the shield timer is active, `Player.hit` returns `False` for
every damage value — including BOMBS and ENEMIES damage, both of which are in
the player's vulnerability set — and leaves the whole player state (health,
removing state, shield) unchanged. -/
theorem C10_player_shield (s : Player) (d : Damage) (h : s.shield.is_active = true) :
    s.hit d = (false, s) ∧
    DamageType.BOMBS ∈ Player.VULNERABILITIES ∧
    DamageType.ENEMIES ∈ Player.VULNERABILITIES := by
  refine ⟨?_, by decide, by decide⟩
  unfold Player.hit
  simp [h]

/-- Witness for C10: a shielded player hit by ENEMIES damage. -/
theorem C10_witness :
    Player.hit ⟨16, false, Timer.startedCountdown 5⟩ ⟨4, DamageType.ENEMIES⟩ =
      (false, ⟨16, false, Timer.startedCountdown 5⟩) ∧
    Player.hit ⟨16, false, Timer.startedCountdown 5⟩ ⟨4, DamageType.BOMBS⟩ =
      (false, ⟨16, false, Timer.startedCountdown 5⟩) :=
  ⟨(C10_player_shield ⟨16, false, Timer.startedCountdown 5⟩ ⟨4, DamageType.ENEMIES⟩ rfl).1,
   (C10_player_shield ⟨16, false, Timer.startedCountdown 5⟩ ⟨4, DamageType.BOMBS⟩ rfl).1⟩

/-! ## Player.bombs (model/entity.py, Player.bombs)

`bombs()` drops a bomb unless: the player is removing, the player is at bomb
capacity, the bombing cooldown is running, the step is in the ambiguous
window `0.6 < step < 0.8`, or a bomb already occupies the target tile.  The
maze query for an existing bomb is abstracted as a predicate on the candidate
drop position; the result's second component is the position of the Bomb
entity added to the maze, if any. -/

def Player.BOMBING_DELAY : ℚ := 0.2

structure PlayerBombState where
  removing_active : Bool
  bomb_count : ℕ
  bomb_capacity : ℕ
  bomb_timer : Timer
  step : ℚ
  prev_position : ℚ × ℚ
  next_position : Option (ℚ × ℚ)
deriving DecidableEq, Repr

/-- Player.bombs, with `bombCollision p` standing for
`maze.get_collision(build_rect(p, size), isinstance Bomb) ≠ ∅`. -/
def Player.bombs (bombCollision : ℚ × ℚ → Bool) (s : PlayerBombState) :
    PlayerBombState × Option (ℚ × ℚ) :=
  if s.removing_active then (s, none)
  else if s.bomb_count = s.bomb_capacity then (s, none)
  else if s.bomb_timer.is_active then (s, none)
  else if 0.6 < s.step ∧ s.step < 0.8 then (s, none)
  else
    let bomb_position :=
      match s.next_position with
      | some np => if 0.8 ≤ s.step then np else s.prev_position
      | none => s.prev_position
    if bombCollision bomb_position then (s, none)
    else ({ s with bomb_count := s.bomb_count + 1,
                   bomb_timer := s.bomb_timer.startOr Player.BOMBING_DELAY },
          some bomb_position)

/-- C8: a player whose `bomb_count` equals `bomb_capacity` gets an immediate
return from `bombs()`: no Bomb is added to the maze and every field of the
player (bomb count, cooldown timer, step, positions) is unchanged. -/
theorem C8_bombs_at_capacity (bombCollision : ℚ × ℚ → Bool) (s : PlayerBombState)
    (h : s.bomb_count = s.bomb_capacity) :
    Player.bombs bombCollision s = (s, none) := by
  unfold Player.bombs
  by_cases h1 : s.removing_active <;> simp [h1, h]

/-- Witness for C8: a concrete player at capacity 5 with 5 live bombs. -/
theorem C8_witness :
    Player.bombs (fun _ => false)
      ⟨false, 5, 5, Timer.init true, 0, (3, 4), none⟩ =
      (⟨false, 5, 5, Timer.init true, 0, (3, 4), none⟩, none) :=
  C8_bombs_at_capacity (fun _ => false) ⟨false, 5, 5, Timer.init true, 0, (3, 4), none⟩ rfl


/-! ## Laser.generate_from_bomb (model/entity.py)

The walk places a CENTER laser on the bomb tile, then walks each of the four
directions outward up to the bomb radius.  Since the bomb position and all
wall positions are integer tiles and every rect involved is a unit square,
`get_collision` with a wall class reduces to equality of tiles; the maze
content is therefore modelled as a tile map `tileAt`, and `is_inside` of the
unit rect at `p` as the bounds test `0 ≤ p ∧ p + (1,1) ≤ size`. -/

inductive Tile where
  | empty
  | solid
  | breakable
deriving DecidableEq, Repr

inductive Laser.Orientation where
  | CENTER
  | VERTICAL
  | HORIZONTAL
deriving DecidableEq, Repr

structure LaserEnv where
  rows : ℕ
  cols : ℕ
  tileAt : ℤ × ℤ → Tile

/-- `maze.is_inside(Rect(p, (1,1)))` for an integer tile `p`. -/
def LaserEnv.inBounds (env : LaserEnv) (p : ℤ × ℤ) : Bool :=
  decide (0 ≤ p.1) && decide (p.1 + 1 ≤ (env.rows : ℤ)) &&
  decide (0 ≤ p.2) && decide (p.2 + 1 ≤ (env.cols : ℤ))

/-- One step in direction `d`. -/
def dirStep (p d : ℤ × ℤ) : ℤ × ℤ := (p.1 + d.1, p.2 + d.2)

/-- `k` steps in direction `d`. -/
def stepN (p d : ℤ × ℤ) (k : ℕ) : ℤ × ℤ := (p.1 + (k : ℤ) * d.1, p.2 + (k : ℤ) * d.2)

/-- The inner loop of `generate_from_bomb` for one direction: `pos` is the
tile of the previous iteration, `dist` the distance of the next candidate
tile, `rem` the remaining iterations (`radius - dist + 1`). -/
def Laser.genDirAux (env : LaserEnv) (radius : ℕ) (d : ℤ × ℤ) :
    ℤ × ℤ → ℕ → ℕ → List ((ℤ × ℤ) × ℚ)
  | _, _, 0 => []
  | pos, dist, rem + 1 =>
    let pos' := dirStep pos d
    if env.inBounds pos' = false ∨ env.tileAt pos' = Tile.solid then []
    else
      let strength := laserStrength dist radius
      if env.tileAt pos' = Tile.breakable then
        if dist = 1 then [(pos', strength)] else []
      else
        (pos', strength) :: Laser.genDirAux env radius d pos' (dist + 1) rem

/-- The lasers placed in direction `d` by `generate_from_bomb`. -/
def Laser.genDir (env : LaserEnv) (radius : ℕ) (bombPos d : ℤ × ℤ) : List ((ℤ × ℤ) × ℚ) :=
  Laser.genDirAux env radius d bombPos 1 radius

/-- Whether a laser is placed on the tile at distance `k` in direction `d`. -/
def Laser.placedAt (env : LaserEnv) (radius : ℕ) (bombPos d : ℤ × ℤ) (k : ℕ) : Bool :=
  (Laser.genDir env radius bombPos d).any (fun l => decide (l.1 = stepN bombPos d k))

/-- Laser.generate_from_bomb: center laser then the four directions in source
order UP, DOWN, RIGHT, LEFT with their orientations. -/
def Laser.generate_from_bomb (env : LaserEnv) (bombPos : ℤ × ℤ) (radius : ℕ) :
    List ((ℤ × ℤ) × ℚ × Laser.Orientation) :=
  (bombPos, Laser.CENTER_STRENGTH, Laser.Orientation.CENTER) ::
    ((Laser.genDir env radius bombPos (-1, 0)).map
        (fun l => (l.1, l.2, Laser.Orientation.VERTICAL)) ++
     (Laser.genDir env radius bombPos (1, 0)).map
        (fun l => (l.1, l.2, Laser.Orientation.VERTICAL)) ++
     (Laser.genDir env radius bombPos (0, 1)).map
        (fun l => (l.1, l.2, Laser.Orientation.HORIZONTAL)) ++
     (Laser.genDir env radius bombPos (0, -1)).map
        (fun l => (l.1, l.2, Laser.Orientation.HORIZONTAL)))

/-- The four direction vectors (integer tile steps). -/
def dirList : List (ℤ × ℤ) := [(-1, 0), (1, 0), (0, 1), (0, -1)]

/-- The 1-row maze `S|B|B| | |S` of the spec's breakable-wall scenario. -/
def scenarioEnv : LaserEnv :=
  { rows := 1, cols := 6,
    tileAt := fun p =>
      if p = ((0 : ℤ), (0 : ℤ)) then Tile.solid
      else if p = ((0 : ℤ), (1 : ℤ)) then Tile.breakable
      else if p = ((0 : ℤ), (2 : ℤ)) then Tile.breakable
      else if p = ((0 : ℤ), (5 : ℤ)) then Tile.solid
      else Tile.empty }

theorem stepN_one (p d : ℤ × ℤ) : stepN p d 1 = dirStep p d := by
  simp [stepN, dirStep]

theorem stepN_shift (p d : ℤ × ℤ) (k : ℕ) : stepN (dirStep p d) d k = stepN p d (k + 1) := by
  simp only [stepN, dirStep, Prod.mk.injEq]
  constructor <;> push_cast <;> ring

theorem stepN_inj (p d : ℤ × ℤ) (hd : d ∈ dirList) (i j : ℕ)
    (h : stepN p d i = stepN p d j) : i = j := by
  simp only [dirList, List.mem_cons, List.not_mem_nil, or_false] at hd
  rcases hd with h4 | h4 | h4 | h4 <;> subst h4 <;>
    simp only [stepN, Prod.mk.injEq] at h <;> omega

/-- Every element of the direction walk sits at some distance `i`, carries
the strength of that distance, lies in bounds, has no breakable wall strictly
before it, and can itself be breakable only when it is the first step. -/
theorem Laser.genDirAux_mem (env : LaserEnv) (radius : ℕ) (d : ℤ × ℤ) :
    ∀ (rem : ℕ) (pos0 : ℤ × ℤ) (dist0 : ℕ) (q : (ℤ × ℤ) × ℚ),
      q ∈ Laser.genDirAux env radius d pos0 dist0 rem →
      ∃ i : ℕ, 1 ≤ i ∧ i ≤ rem ∧
        q = (stepN pos0 d i, laserStrength (dist0 + i - 1) radius) ∧
        env.inBounds (stepN pos0 d i) = true ∧
        (∀ j, 1 ≤ j → j < i → env.tileAt (stepN pos0 d j) ≠ Tile.breakable) ∧
        (env.tileAt (stepN pos0 d i) = Tile.breakable → dist0 + i = 2) := by
  intro rem
  induction rem with
  | zero => intro pos0 dist0 q hq; simp [Laser.genDirAux] at hq
  | succ rem ih =>
    intro pos0 dist0 q hq
    rw [Laser.genDirAux] at hq
    by_cases hstop : env.inBounds (dirStep pos0 d) = false ∨ env.tileAt (dirStep pos0 d) = Tile.solid
    · simp [hstop] at hq
    · rw [if_neg hstop] at hq
      have hin : env.inBounds (dirStep pos0 d) = true := by
        rcases Bool.eq_false_or_eq_true (env.inBounds (dirStep pos0 d)) with h | h
        · exact h
        · exact absurd (Or.inl h) hstop
      by_cases hbrk : env.tileAt (dirStep pos0 d) = Tile.breakable
      · rw [if_pos hbrk] at hq
        by_cases hdist : dist0 = 1
        · rw [if_pos hdist] at hq
          simp only [List.mem_singleton] at hq
          refine ⟨1, le_refl 1, by omega, ?_, ?_, ?_, ?_⟩
          · rw [hq, stepN_one]
            simp [hdist]
          · rw [stepN_one]; exact hin
          · intro j hj1 hj2; omega
          · intro _; omega
        · simp [hdist] at hq
      · rw [if_neg hbrk] at hq
        rcases List.mem_cons.1 hq with hq | hq
        · refine ⟨1, le_refl 1, by omega, ?_, ?_, ?_, ?_⟩
          · rw [hq, stepN_one]
            simp
          · rw [stepN_one]; exact hin
          · intro j hj1 hj2; omega
          · intro hb; rw [stepN_one] at hb; exact absurd hb hbrk
        · obtain ⟨i, hi1, hi2, hi3, hi4, hi5, hi6⟩ := ih (dirStep pos0 d) (dist0 + 1) q hq
          refine ⟨i + 1, by omega, by omega, ?_, ?_, ?_, ?_⟩
          · rw [hi3, stepN_shift]
            have harith : dist0 + 1 + i - 1 = dist0 + (i + 1) - 1 := by omega
            rw [harith]
          · rw [← stepN_shift]; exact hi4
          · intro j hj1 hj2
            rcases Nat.eq_or_lt_of_le hj1 with hj | hj
            · rw [← hj, stepN_one]; exact hbrk
            · have hj' : 1 ≤ j - 1 := by omega
              have hj'' : j - 1 < i := by omega
              have hmem := hi5 (j - 1) hj' hj''
              rw [stepN_shift] at hmem
              have hjeq : j - 1 + 1 = j := by omega
              rw [hjeq] at hmem
              exact hmem
          · intro hb
            rw [← stepN_shift] at hb
            have := hi6 hb
            omega

/-- Concrete evaluation of the breakable-wall scenario: bomb at (0,3),
radius 3, in the 1-row maze `S|B|B| | |S`. -/
theorem scenario_generate :
    Laser.generate_from_bomb scenarioEnv (0, 3) 3 =
      [((0, 3), 1, Laser.Orientation.CENTER), ((0, 4), 5 / 6, Laser.Orientation.HORIZONTAL),
       ((0, 2), 5 / 6, Laser.Orientation.HORIZONTAL)] := by
  have h1 : laserStrength 1 3 = 5 / 6 := by norm_num [laserStrength]
  simp only [Laser.generate_from_bomb, Laser.genDir, Laser.genDirAux, scenarioEnv,
    LaserEnv.inBounds, dirStep, Laser.CENTER_STRENGTH, h1]
  norm_num
  have n1 : ¬ (Tile.empty = Tile.solid) := by intro hco; cases hco
  have n2 : ¬ (Tile.breakable = Tile.solid) := by intro hco; cases hco
  rw [if_neg n1, if_neg n2]
  simp

/-- C7: walking outward from an exploding bomb, a tile holding a
BreakableWall receives a laser iff it is the first step outward (and in
bounds), and no laser is ever placed beyond it in that direction; and in the
1-row maze `S|B|B| | |S` with a radius-3 bomb on the void at column 3, the
near BreakableWall (column 2) receives a laser while the far one (column 1)
never does. -/
theorem C7_breakable_wall (env : LaserEnv) (radius k : ℕ) (bombPos d : ℤ × ℤ)
    (hd : d ∈ dirList) (hk1 : 1 ≤ k) (hk2 : k ≤ radius)
    (hbrk : env.tileAt (stepN bombPos d k) = Tile.breakable) :
    (∀ e, k < e → Laser.placedAt env radius bombPos d e = false) ∧
    (Laser.placedAt env radius bombPos d k = true ↔
      k = 1 ∧ env.inBounds (stepN bombPos d 1) = true) ∧
    Laser.generate_from_bomb scenarioEnv (0, 3) 3 =
      [((0, 3), 1, Laser.Orientation.CENTER), ((0, 4), 5 / 6, Laser.Orientation.HORIZONTAL),
       ((0, 2), 5 / 6, Laser.Orientation.HORIZONTAL)] ∧
    ((0, 2) : ℤ × ℤ) ∈ (Laser.generate_from_bomb scenarioEnv (0, 3) 3).map (fun l => l.1) ∧
    ((0, 1) : ℤ × ℤ) ∉ (Laser.generate_from_bomb scenarioEnv (0, 3) 3).map (fun l => l.1) := by
  refine ⟨?_, ⟨?_, ?_⟩, ?_, ?_, ?_⟩
  · intro e he
    by_contra hco
    rw [Bool.not_eq_false, Laser.placedAt, List.any_eq_true] at hco
    obtain ⟨l, hl, hleq⟩ := hco
    rw [decide_eq_true_iff] at hleq
    obtain ⟨i, hi1, hi2, hi3, _, hi5, _⟩ := Laser.genDirAux_mem env radius d radius bombPos 1 l hl
    have hfst : l.1 = stepN bombPos d i := by rw [hi3]
    have hie : i = e := stepN_inj bombPos d hd i e (by rw [← hfst, hleq])
    exact hi5 k hk1 (by omega) hbrk
  · intro hpl
    rw [Laser.placedAt, List.any_eq_true] at hpl
    obtain ⟨l, hl, hleq⟩ := hpl
    rw [decide_eq_true_iff] at hleq
    obtain ⟨i, hi1, hi2, hi3, hi4, _, hi6⟩ := Laser.genDirAux_mem env radius d radius bombPos 1 l hl
    have hfst : l.1 = stepN bombPos d i := by rw [hi3]
    have hik : i = k := stepN_inj bombPos d hd i k (by rw [← hfst, hleq])
    subst hik
    have := hi6 hbrk
    have hi1' : i = 1 := by omega
    subst hi1'
    exact ⟨rfl, hi4⟩
  · rintro ⟨hk, hin⟩
    subst hk
    obtain ⟨r, hr⟩ : ∃ r, radius = r + 1 := ⟨radius - 1, by omega⟩
    rw [Laser.placedAt, Laser.genDir, hr, Laser.genDirAux]
    rw [stepN_one] at hbrk hin
    have hsolid : ¬ env.tileAt (dirStep bombPos d) = Tile.solid := by
      rw [hbrk]; intro hco; cases hco
    rw [if_neg (by simp [hin, hsolid]), if_pos hbrk, if_pos rfl]
    simp [stepN_one]
  · exact scenario_generate
  · rw [scenario_generate]; decide
  · rw [scenario_generate]; decide

/-- Witness for C7: the general part applied inside the scenario maze, to the
breakable wall at distance 1 to the LEFT of the bomb. -/
theorem C7_witness :
    (Laser.placedAt scenarioEnv 3 (0, 3) (0, -1) 2 = false ∧
     Laser.placedAt scenarioEnv 3 (0, 3) (0, -1) 1 = true) ∧
    ((0, 1) : ℤ × ℤ) ∉ (Laser.generate_from_bomb scenarioEnv (0, 3) 3).map (fun l => l.1) := by
  have h := C7_breakable_wall scenarioEnv 3 1 (0, 3) (0, -1) (by decide) (by decide) (by decide)
    (by decide)
  exact ⟨⟨h.1 2 (by decide), h.2.1.2 ⟨rfl, by decide⟩⟩, h.2.2.2.2⟩

/-! ## Maze round state machine (model/maze.py, Maze.update)

The maze's end-of-round logic only reads the per-tick entity counts (players,
enemies, non-removing coins) computed after all entities updated, and its
three timers.  The per-entity updates are abstracted into those counts, which
are supplied per tick (`TickObs`).  The maze timers are count-up `Timer()`s,
except that `extra_game_timer` is restarted with `float("inf")` after the
extra game ends — modelled by an optional total where `none` stands for the
infinite total. -/

structure UpTimer where
  is_active : Bool
  total : Option ℚ
  current : ℚ
deriving DecidableEq, Repr

/-- Timer(): count-up, inactive, total 0.0. -/
def UpTimer.init : UpTimer := { is_active := false, total := some 0, current := 0 }

/-- is_done for the count-up timer (`current >= total`; an infinite total is
never reached). -/
def UpTimer.is_done (t : UpTimer) : Bool :=
  t.is_active && (match t.total with
    | none => false
    | some x => decide (x ≤ t.current))

/-- start: error when already active. -/
def UpTimer.start (t : UpTimer) (total : Option ℚ) : Except String UpTimer :=
  if t.is_active then Except.error "Timer already active"
  else Except.ok { is_active := true, total := total, current := 0 }

/-- start on a spot where the timer is statically inactive. -/
def UpTimer.startOr (t : UpTimer) (total : Option ℚ) : UpTimer :=
  match t.start total with
  | Except.ok t' => t'
  | Except.error _ => t

/-- reset: deactivate. -/
def UpTimer.reset (t : UpTimer) : UpTimer := { t with is_active := false }

/-- update: no-op returning False when inactive. -/
def UpTimer.update (t : UpTimer) (delay : ℚ) : Bool × UpTimer :=
  if t.is_active = false then (false, t)
  else
    let t' := { t with current := t.current + delay }
    ((match t'.total with | none => false | some x => decide (x ≤ t'.current)), t')

inductive MazeSt where
  | RUNNING
  | FAILED
  | SOLVED
deriving DecidableEq, Repr

inductive MEvent where
  | ForwardTime
  | MazeFailed
  | MazeSolved
  | ExtraGame
deriving DecidableEq, Repr

def Maze.END_DELAY : ℚ := 2
def Maze.GAME_OVER_DELAY : ℚ := 4
def Maze.EXTRA_GAME_DELAY : ℚ := 30

structure MazeSM where
  state : MazeSt
  end_timer : UpTimer
  extra_game_timer : UpTimer
  hurry_up_timer : UpTimer
deriving DecidableEq, Repr

/-- The per-tick observation: elapsed delay and the entity counts found when
Maze.update scans `self.entities` (after the per-entity updates). -/
structure TickObs where
  delay : ℚ
  players : ℕ
  enemies : ℕ
  coins : ℕ
deriving DecidableEq, Repr

/-- Maze.update, with the per-entity effects (entity ticks, alien toggling,
enraging) abstracted away; returns the new maze state and the maze-level
events published this tick. -/
def MazeSM.update (m : MazeSM) (tk : TickObs) : MazeSM × List MEvent :=
  let egu := m.extra_game_timer.update tk.delay
  let eg := if egu.1 then (egu.2.reset).startOr none else egu.2
  let huu := m.hurry_up_timer.update tk.delay
  let m1 : MazeSM := { m with extra_game_timer := eg, hurry_up_timer := huu.2 }
  if m1.end_timer.is_active then
    ({ m1 with end_timer := (m1.end_timer.update tk.delay).2 }, [MEvent.ForwardTime])
  else if tk.players = 0 then
    ({ m1 with state := MazeSt.FAILED,
               end_timer := m1.end_timer.startOr (some Maze.GAME_OVER_DELAY) },
     [MEvent.ForwardTime, MEvent.MazeFailed])
  else if tk.enemies = 0 then
    ({ m1 with state := MazeSt.SOLVED,
               end_timer := m1.end_timer.startOr (some Maze.END_DELAY) },
     [MEvent.ForwardTime, MEvent.MazeSolved])
  else if tk.coins = 0 ∧ m1.extra_game_timer.is_active = false then
    ({ m1 with extra_game_timer := m1.extra_game_timer.startOr (some Maze.EXTRA_GAME_DELAY) },
     [MEvent.ForwardTime, MEvent.ExtraGame])
  else (m1, [MEvent.ForwardTime])

/-- Fold of Maze.update over a tick list, keeping the final state. -/
def MazeSM.run (m : MazeSM) : List TickObs → MazeSM
  | [] => m
  | tk :: rest => MazeSM.run (m.update tk).1 rest

/-- The event lists published on each tick of a run. -/
def MazeSM.events (m : MazeSM) : List TickObs → List (List MEvent)
  | [] => []
  | tk :: rest => (m.update tk).2 :: MazeSM.events (m.update tk).1 rest

/-- The dummy tick used for out-of-range `getD` lookups. -/
def tickDummy : TickObs := { delay := 0, players := 0, enemies := 0, coins := 0 }

theorem UpTimer.update_keeps_active (t : UpTimer) (d : ℚ) :
    (t.update d).2.is_active = t.is_active := by
  unfold UpTimer.update
  by_cases h : t.is_active = false <;> simp [h]

theorem MazeSM.update_end_active (m : MazeSM) (tk : TickObs)
    (h : m.end_timer.is_active = true) :
    (m.update tk).1.end_timer.is_active = true ∧ (m.update tk).2 = [MEvent.ForwardTime] := by
  unfold MazeSM.update
  simp [h, UpTimer.update_keeps_active]

/-- Once the end timer runs, every later tick publishes only ForwardTime. -/
theorem MazeSM.events_latched (ticks : List TickObs) : ∀ (m : MazeSM),
    m.end_timer.is_active = true →
    ∀ evs ∈ MazeSM.events m ticks, evs = [MEvent.ForwardTime] := by
  induction ticks with
  | nil => intro m _ evs hevs; simp [MazeSM.events] at hevs
  | cons tk rest ih =>
    intro m hm evs hevs
    rw [MazeSM.events] at hevs
    rcases List.mem_cons.1 hevs with hevs | hevs
    · rw [hevs]; exact (MazeSM.update_end_active m tk hm).2
    · exact ih (m.update tk).1 (MazeSM.update_end_active m tk hm).1 evs hevs

theorem MazeSM.update_running (m : MazeSM) (tk : TickObs)
    (hend : m.end_timer.is_active = false) (hp : 0 < tk.players) (he : 0 < tk.enemies) :
    (m.update tk).1.state = m.state ∧ (m.update tk).1.end_timer = m.end_timer := by
  unfold MazeSM.update
  simp only [hend]
  have hp' : ¬ tk.players = 0 := by omega
  have he' : ¬ tk.enemies = 0 := by omega
  by_cases hc : tk.coins = 0 ∧
      (if (m.extra_game_timer.update tk.delay).1 then
        (((m.extra_game_timer.update tk.delay).2.reset).startOr none)
       else (m.extra_game_timer.update tk.delay).2).is_active = false <;>
    simp [hp', he', hc]

/-- While players and enemies both remain, a run keeps the maze RUNNING with
an inactive end timer. -/
theorem MazeSM.run_running (ticks : List TickObs) : ∀ (m : MazeSM),
    m.end_timer.is_active = false →
    (∀ tk ∈ ticks, 0 < tk.players ∧ 0 < tk.enemies) →
    (MazeSM.run m ticks).state = m.state ∧
    (MazeSM.run m ticks).end_timer = m.end_timer := by
  induction ticks with
  | nil => intro m hm _; simp [MazeSM.run]
  | cons tk rest ih =>
    intro m hm hall
    have h0 := hall tk (List.mem_cons_self tk rest)
    obtain ⟨h1, h2⟩ := MazeSM.update_running m tk hm h0.1 h0.2
    have hm' : (m.update tk).1.end_timer.is_active = false := by rw [h2]; exact hm
    obtain ⟨h3, h4⟩ := ih (m.update tk).1 hm' (fun t ht => hall t (List.mem_cons_of_mem tk ht))
    rw [MazeSM.run]
    exact ⟨h3.trans h1, h4.trans h2⟩

/-- C6: in a running maze (end timer not yet started), on the first update
tick with zero players the state becomes FAILED, the end timer starts with
the game-over delay, MazeFailedEvent is published on that tick, and it is
never published on any later tick (the end state is latched). -/
theorem C6_maze_failed (m0 : MazeSM) (ticks : List TickObs) (k : ℕ)
    (hrun : m0.state = MazeSt.RUNNING) (hend : m0.end_timer.is_active = false)
    (hk : k < ticks.length)
    (hfail : (ticks.getD k tickDummy).players = 0)
    (hbefore : ∀ i, i < k → 0 < (ticks.getD i tickDummy).players ∧
                            0 < (ticks.getD i tickDummy).enemies) :
    ((MazeSM.run m0 (ticks.take k)).update (ticks.getD k tickDummy)).1.state = MazeSt.FAILED ∧
    ((MazeSM.run m0 (ticks.take k)).update
        (ticks.getD k tickDummy)).1.end_timer.is_active = true ∧
    ((MazeSM.run m0 (ticks.take k)).update
        (ticks.getD k tickDummy)).1.end_timer.total = some Maze.GAME_OVER_DELAY ∧
    (MazeSM.events m0 ticks).getD k [] = [MEvent.ForwardTime, MEvent.MazeFailed] ∧
    (∀ j, k < j → MEvent.MazeFailed ∉ (MazeSM.events m0 ticks).getD j []) := by
  induction k generalizing m0 ticks with
  | zero =>
    obtain ⟨tk, rest, hticks⟩ : ∃ tk rest, ticks = tk :: rest := by
      cases ticks with
      | nil => simp at hk
      | cons a b => exact ⟨a, b, rfl⟩
    subst hticks
    simp only [List.take_zero, MazeSM.run, List.getD_cons_zero] at hfail ⊢
    have hfail' : tk.players = 0 := hfail
    have hupd : (m0.update tk).1.state = MazeSt.FAILED ∧
        (m0.update tk).1.end_timer = m0.end_timer.startOr (some Maze.GAME_OVER_DELAY) ∧
        (m0.update tk).2 = [MEvent.ForwardTime, MEvent.MazeFailed] := by
      unfold MazeSM.update
      simp [hend, hfail']
    have hstart : m0.end_timer.startOr (some Maze.GAME_OVER_DELAY) =
        { is_active := true, total := some Maze.GAME_OVER_DELAY, current := 0 } := by
      unfold UpTimer.startOr UpTimer.start
      simp [hend]
    refine ⟨hupd.1, ?_, ?_, ?_, ?_⟩
    · rw [hupd.2.1, hstart]
    · rw [hupd.2.1, hstart]
    · rw [MazeSM.events, List.getD_cons_zero, hupd.2.2]
    · intro j hj hmem
      rw [MazeSM.events] at hmem
      obtain ⟨j', hj'⟩ : ∃ j', j = j' + 1 := ⟨j - 1, by omega⟩
      subst hj'
      rw [List.getD_cons_succ] at hmem
      by_cases hjlen : j' < (MazeSM.events (m0.update tk).1 rest).length
      · have hin : (MazeSM.events (m0.update tk).1 rest).getD j' [] ∈
            MazeSM.events (m0.update tk).1 rest := by
          rw [List.getD_eq_getElem _ _ hjlen]
          exact List.getElem_mem hjlen
        have hact : (m0.update tk).1.end_timer.is_active = true := by
          rw [hupd.2.1, hstart]
        have := MazeSM.events_latched rest (m0.update tk).1 hact _ hin
        rw [this] at hmem
        simp at hmem
      · rw [List.getD_eq_default _ _ (by omega)] at hmem
        simp at hmem
  | succ k ih =>
    obtain ⟨tk, rest, hticks⟩ : ∃ tk rest, ticks = tk :: rest := by
      cases ticks with
      | nil => simp at hk
      | cons a b => exact ⟨a, b, rfl⟩
    subst hticks
    have h0 := hbefore 0 (by omega)
    rw [List.getD_cons_zero] at h0
    have hupd := MazeSM.update_running m0 tk hend h0.1 h0.2
    have hend' : (m0.update tk).1.end_timer.is_active = false := by rw [hupd.2]; exact hend
    have hrun' : (m0.update tk).1.state = MazeSt.RUNNING := by rw [hupd.1]; exact hrun
    have hfail' : (rest.getD k tickDummy).players = 0 := by
      rw [List.getD_cons_succ] at hfail; exact hfail
    have hbefore' : ∀ i, i < k → 0 < (rest.getD i tickDummy).players ∧
        0 < (rest.getD i tickDummy).enemies := by
      intro i hi
      have := hbefore (i + 1) (by omega)
      rw [List.getD_cons_succ] at this
      exact this
    have hk' : k < rest.length := by simp at hk; omega
    obtain ⟨g1, g2, g3, g4, g5⟩ := ih (m0.update tk).1 rest hrun' hend' hk' hfail' hbefore'
    have htake : MazeSM.run m0 ((tk :: rest).take (k + 1)) =
        MazeSM.run (m0.update tk).1 (rest.take k) := by
      rw [List.take_succ_cons, MazeSM.run]
    have hget : (tk :: rest).getD (k + 1) tickDummy = rest.getD k tickDummy :=
      List.getD_cons_succ
    rw [htake, hget]
    refine ⟨g1, g2, g3, ?_, ?_⟩
    · rw [MazeSM.events, List.getD_cons_succ]
      exact g4
    · intro j hj hmem
      obtain ⟨j', hj'⟩ : ∃ j', j = j' + 1 := ⟨j - 1, by omega⟩
      subst hj'
      rw [MazeSM.events, List.getD_cons_succ] at hmem
      exact g5 j' (by omega) hmem

/-- Witness for C6: one player present on tick 0, dead on tick 1, in a maze
with one enemy; the failure fires on tick 1 and never on tick 2. -/
theorem C6_witness :
    ((MazeSM.run ⟨MazeSt.RUNNING, UpTimer.init, UpTimer.init, UpTimer.init⟩
        ([⟨1, 1, 1, 1⟩, ⟨1, 0, 1, 1⟩, ⟨1, 0, 0, 1⟩].take 1)).update
        ([⟨1, 1, 1, 1⟩, ⟨1, 0, 1, 1⟩, ⟨1, 0, 0, 1⟩].getD 1 tickDummy)).1.state =
      MazeSt.FAILED ∧
    (MazeSM.events ⟨MazeSt.RUNNING, UpTimer.init, UpTimer.init, UpTimer.init⟩
        [⟨1, 1, 1, 1⟩, ⟨1, 0, 1, 1⟩, ⟨1, 0, 0, 1⟩]).getD 1 [] =
      [MEvent.ForwardTime, MEvent.MazeFailed] ∧
    MEvent.MazeFailed ∉ (MazeSM.events ⟨MazeSt.RUNNING, UpTimer.init, UpTimer.init, UpTimer.init⟩
        [⟨1, 1, 1, 1⟩, ⟨1, 0, 1, 1⟩, ⟨1, 0, 0, 1⟩]).getD 2 [] := by
  have h := C6_maze_failed ⟨MazeSt.RUNNING, UpTimer.init, UpTimer.init, UpTimer.init⟩
    [⟨1, 1, 1, 1⟩, ⟨1, 0, 1, 1⟩, ⟨1, 0, 0, 1⟩] 1 rfl rfl (by norm_num) rfl
    (by intro i hi
        have hi0 : i = 0 := by omega
        subst hi0
        exact ⟨by norm_num, by norm_num⟩)
  exact ⟨h.1, h.2.2.2.1, h.2.2.2.2 2 (by norm_num)⟩

/-! ## Maze text format (model/maze.py, Maze.__str__ / Maze.unserialize)

Descriptions are character lists.  `unserialize` splits on newlines, splits
each line on `|`, and walks the cells: void is skipped, `X`/`Y` record player
spawns (later occurrences overwrite, like the Python dict assignment), a
registered entity tag creates an entity at that tile, anything else is a
fatal `MazeDescriptionError` naming the cell and its position; a row whose
cell count differs from the first row's is a fatal error as well.  The
resulting maze is projected to what serialization reads back: size, the tag
and position of every created entity (in creation order), and the spawn
table.  Teleporter linking and the coin/extra-game bookkeeping do not affect
serialization and are not modelled here.  `__str__` renders entities then
remaining spawn points into a void-filled grid and joins with the original
separators; the Python iteration order over the entity set is modelled by
the creation order (for a freshly unserialized maze all positions are
distinct, so any order renders the same grid). -/

def Maze.SEP : Char := '|'
def Maze.VOID : Char := ' '
def nlChar : Char := '\n'

/-- The single-character tags registered by the entity classes with a REPR:
Coin, BreakableWall, SolidWall, Teleporter, the ten enemies, and Head. -/
def entityTags : List Char :=
  ['C', 'B', 'S', 'T', '0', '1', '2', '3', '4', '5', '6', '7', '8', '9', 'H']

/-- Python `str.split(sep)`: never returns an empty list. -/
def pySplit (sep : Char) : List Char → List (List Char)
  | [] => [[]]
  | c :: rest =>
    match pySplit sep rest with
    | [] => [[c]]
    | h :: t => if c = sep then [] :: h :: t else (c :: h) :: t

/-- Python `sep.join(parts)`. -/
def pyJoin (sep : Char) : List (List Char) → List Char
  | [] => []
  | [x] => x
  | x :: y :: t => x ++ sep :: pyJoin sep (y :: t)

theorem pySplit_ne_nil (sep : Char) (l : List Char) : pySplit sep l ≠ [] := by
  cases l with
  | nil => simp [pySplit]
  | cons c rest =>
    rw [pySplit]
    rcases hsp : pySplit sep rest with _ | ⟨h, t⟩
    · simp
    · by_cases hc : c = sep <;> simp [hc]

theorem pyJoin_cons_cons (sep : Char) (c : Char) (h : List Char) (t : List (List Char)) :
    pyJoin sep ((c :: h) :: t) = c :: pyJoin sep (h :: t) := by
  cases t with
  | nil => simp [pyJoin]
  | cons y t => simp [pyJoin]

/-- `sep.join(s.split(sep)) == s`. -/
theorem pyJoin_pySplit (sep : Char) : ∀ l : List Char, pyJoin sep (pySplit sep l) = l := by
  intro l
  induction l with
  | nil => simp [pySplit, pyJoin]
  | cons c rest ih =>
    rcases hsp : pySplit sep rest with _ | ⟨h, t⟩
    · exact absurd hsp (pySplit_ne_nil sep rest)
    · rw [hsp] at ih
      by_cases hc : c = sep
      · simp only [pySplit, hsp, if_pos hc]
        have hj : pyJoin sep ([] :: h :: t) = sep :: pyJoin sep (h :: t) := by simp [pyJoin]
        rw [hj, ih, hc]
      · simp only [pySplit, hsp, if_neg hc]
        rw [pyJoin_cons_cons, ih]

/-- The maze data read back by unserialize and rendered by str():
size, created entities as (tag, row, column) in creation order, and the
player spawn table (slot X is player 1, slot Y is player 2). -/
structure MazeData where
  rows : ℕ
  cols : ℕ
  ents : List (Char × ℕ × ℕ)
  spawnX : Option (ℕ × ℕ)
  spawnY : Option (ℕ × ℕ)
deriving DecidableEq, Repr

/-- MazeDescriptionError: either an unknown cell (with its content and
position) or a row whose shape differs from the first row's. -/
inductive MazeErr where
  | badRow (i : ℕ)
  | badChar (cell : List Char) (i j : ℕ)
deriving DecidableEq, Repr

/-- Whether a cell is one the parser accepts. -/
def isValidCell (cell : List Char) : Bool :=
  decide (cell = [Maze.VOID]) || decide (cell = ['X']) || decide (cell = ['Y']) ||
    (match cell with
     | [c] => decide (c ∈ entityTags)
     | _ => false)

/-- The body of the cell loop of Maze.unserialize. -/
def parseCell (i j : ℕ) (cell : List Char) (acc : MazeData) : Except MazeErr MazeData :=
  if cell = [Maze.VOID] then Except.ok acc
  else if cell = ['X'] then Except.ok { acc with spawnX := some (i, j) }
  else if cell = ['Y'] then Except.ok { acc with spawnY := some (i, j) }
  else
    match cell with
    | [c] =>
      if c ∈ entityTags then Except.ok { acc with ents := acc.ents ++ [(c, i, j)] }
      else Except.error (MazeErr.badChar cell i j)
    | _ => Except.error (MazeErr.badChar cell i j)

/-- The cell loop of Maze.unserialize over one row. -/
def parseRow (i : ℕ) : ℕ → List (List Char) → MazeData → Except MazeErr MazeData
  | _, [], acc => Except.ok acc
  | j, cell :: rest, acc =>
    match parseCell i j cell acc with
    | Except.error e => Except.error e
    | Except.ok acc' => parseRow i (j + 1) rest acc'

/-- The row loop of Maze.unserialize (each row's length is checked against
the first row's cell count). -/
def parseRows (cols : ℕ) : ℕ → List (List (List Char)) → MazeData → Except MazeErr MazeData
  | _, [], acc => Except.ok acc
  | i, row :: rest, acc =>
    if row.length ≠ cols then Except.error (MazeErr.badRow i)
    else
      match parseRow i 0 row acc with
      | Except.error e => Except.error e
      | Except.ok acc' => parseRows cols (i + 1) rest acc'

/-- The cell matrix of a description: split on newlines, then on `|`. -/
def Maze.toMatrix (desc : List Char) : List (List (List Char)) :=
  (pySplit nlChar desc).map (pySplit Maze.SEP)

/-- Maze.unserialize, projected to the serialization-relevant data. -/
def Maze.unserialize (desc : List Char) : Except MazeErr MazeData :=
  let matrix := Maze.toMatrix desc
  parseRows ((matrix.headD []).length) 0 matrix
    { rows := matrix.length, cols := (matrix.headD []).length, ents := [],
      spawnX := none, spawnY := none }

/-- `static_repr[i][j] = c` (out-of-range writes cannot occur for data coming
from a parse; `List.set` ignores them). -/
def place (g : List (List Char)) (i j : ℕ) (c : Char) : List (List Char) :=
  g.set i ((g.getD i []).set j c)

/-- The entity-placement loop of Maze.__str__
(`static_repr[int(i)][int(j)] = representation` over the entity set). -/
def placeEnts (ents : List (Char × ℕ × ℕ)) (g : List (List Char)) : List (List Char) :=
  ents.foldl (fun g e => place g e.2.1 e.2.2 e.1) g

/-- The grid built by Maze.__str__: void everywhere, then the entity tags,
then the remaining spawn letters. -/
def Maze.renderGrid (m : MazeData) : List (List Char) :=
  let g0 := List.replicate m.rows (List.replicate m.cols Maze.VOID)
  let g1 := placeEnts m.ents g0
  let g2 := match m.spawnX with | some p => place g1 p.1 p.2 'X' | none => g1
  match m.spawnY with | some p => place g2 p.1 p.2 'Y' | none => g2

/-- Maze.serialize / Maze.__str__: render the grid, join cells with `|` and
rows with newlines. -/
def Maze.serialize (m : MazeData) : List Char :=
  pyJoin nlChar ((Maze.renderGrid m).map (fun row => pyJoin Maze.SEP (row.map (fun c => [c]))))

/-- The character at grid position (i, j). -/
def gridGet (g : List (List Char)) (i j : ℕ) : Char := (g.getD i []).getD j Maze.VOID

/-- The cell of a matrix at position (i, j). -/
def cellAt (matrix : List (List (List Char))) (i j : ℕ) : List Char :=
  (matrix.getD i []).getD j []

/-- The four ways a cell can parse successfully. -/
theorem parseCell_ok (i j : ℕ) (cell : List Char) (acc acc' : MazeData)
    (h : parseCell i j cell acc = Except.ok acc') :
    isValidCell cell = true ∧
    ((cell = [Maze.VOID] ∧ acc' = acc) ∨
     (cell = ['X'] ∧ acc' = { acc with spawnX := some (i, j) }) ∨
     (cell = ['Y'] ∧ acc' = { acc with spawnY := some (i, j) }) ∨
     (∃ c : Char, cell = [c] ∧ c ∈ entityTags ∧
        acc' = { acc with ents := acc.ents ++ [(c, i, j)] })) := by
  unfold parseCell at h
  by_cases hv : cell = [Maze.VOID]
  · rw [if_pos hv] at h
    refine ⟨by simp [isValidCell, hv], Or.inl ⟨hv, ?_⟩⟩
    exact (Except.ok.injEq _ _ ▸ h).symm
  · rw [if_neg hv] at h
    by_cases hx : cell = ['X']
    · rw [if_pos hx] at h
      refine ⟨by simp [isValidCell, hx], Or.inr (Or.inl ⟨hx, ?_⟩)⟩
      exact (Except.ok.injEq _ _ ▸ h).symm
    · rw [if_neg hx] at h
      by_cases hy : cell = ['Y']
      · rw [if_pos hy] at h
        refine ⟨by simp [isValidCell, hy], Or.inr (Or.inr (Or.inl ⟨hy, ?_⟩))⟩
        exact (Except.ok.injEq _ _ ▸ h).symm
      · rw [if_neg hy] at h
        rcases cell with _ | ⟨c, cr⟩
        · simp at h
        · rcases cr with _ | ⟨c2, cr2⟩
          · have h2 : (if c ∈ entityTags then
                Except.ok { acc with ents := acc.ents ++ [(c, i, j)] }
              else Except.error (MazeErr.badChar [c] i j)) = Except.ok acc' := h
            by_cases ht : c ∈ entityTags
            · rw [if_pos ht] at h2
              refine ⟨by simp [isValidCell, ht], Or.inr (Or.inr (Or.inr ⟨c, rfl, ht, ?_⟩))⟩
              exact (Except.ok.injEq _ _ ▸ h2).symm
            · rw [if_neg ht] at h2
              simp at h2
          · simp at h

/-- What one successful cell parse does to the accumulated maze data. -/
theorem parseCell_effects (i j : ℕ) (cell : List Char) (acc acc' : MazeData)
    (h : parseCell i j cell acc = Except.ok acc') :
    isValidCell cell = true ∧
    (acc'.rows = acc.rows ∧ acc'.cols = acc.cols) ∧
    (∀ e ∈ acc.ents, e ∈ acc'.ents) ∧
    (∀ e ∈ acc'.ents, e ∈ acc.ents ∨
      (cell = [e.1] ∧ e.1 ∈ entityTags ∧ e.2.1 = i ∧ e.2.2 = j)) ∧
    (∀ c : Char, cell = [c] → c ∈ entityTags → (c, i, j) ∈ acc'.ents) ∧
    (acc.spawnX ≠ none → acc'.spawnX ≠ none) ∧
    (∀ p, acc'.spawnX = some p → acc.spawnX = some p ∨ (cell = ['X'] ∧ p = (i, j))) ∧
    (cell = ['X'] → acc'.spawnX = some (i, j)) ∧
    (acc.spawnY ≠ none → acc'.spawnY ≠ none) ∧
    (∀ p, acc'.spawnY = some p → acc.spawnY = some p ∨ (cell = ['Y'] ∧ p = (i, j))) ∧
    (cell = ['Y'] → acc'.spawnY = some (i, j)) := by
  obtain ⟨hv, hshape⟩ := parseCell_ok i j cell acc acc' h
  refine ⟨hv, ?_⟩
  rcases hshape with ⟨hcell, rfl⟩ | ⟨hcell, rfl⟩ | ⟨hcell, rfl⟩ | ⟨c, hcell, htag, rfl⟩
  · subst hcell
    refine ⟨⟨rfl, rfl⟩, fun e he => he, fun e he => Or.inl he, ?_, fun hp => hp,
      fun p hp => Or.inl hp, ?_, fun hp => hp, fun p hp => Or.inl hp, ?_⟩
    · intro c hc htag
      simp only [List.cons.injEq, and_true] at hc
      rw [← hc] at htag
      exact absurd htag (by decide)
    · intro hco; exact absurd hco (by decide)
    · intro hco; exact absurd hco (by decide)
  · subst hcell
    refine ⟨⟨rfl, rfl⟩, fun e he => he, fun e he => Or.inl he, ?_, fun _ => by simp,
      ?_, fun _ => rfl, fun hp => hp, fun p hp => Or.inl hp, ?_⟩
    · intro c hc htag
      simp only [List.cons.injEq, and_true] at hc
      rw [← hc] at htag
      exact absurd htag (by decide)
    · intro p hp
      simp at hp
      exact Or.inr ⟨rfl, hp.symm⟩
    · intro hco; exact absurd hco (by decide)
  · subst hcell
    refine ⟨⟨rfl, rfl⟩, fun e he => he, fun e he => Or.inl he, ?_, fun hp => hp,
      fun p hp => Or.inl hp, ?_, fun _ => by simp, ?_, fun _ => rfl⟩
    · intro c hc htag
      simp only [List.cons.injEq, and_true] at hc
      rw [← hc] at htag
      exact absurd htag (by decide)
    · intro hco; exact absurd hco (by decide)
    · intro p hp
      simp at hp
      exact Or.inr ⟨rfl, hp.symm⟩
  · subst hcell
    refine ⟨⟨rfl, rfl⟩, ?_, ?_, ?_, fun hp => hp, fun p hp => Or.inl hp, ?_,
      fun hp => hp, fun p hp => Or.inl hp, ?_⟩
    · intro e he
      simp only [List.mem_append]
      exact Or.inl he
    · intro e he
      simp only [List.mem_append, List.mem_singleton] at he
      rcases he with he | he
      · exact Or.inl he
      · rw [he]
        exact Or.inr ⟨rfl, htag, rfl, rfl⟩
    · intro c' hc htag'
      simp only [List.cons.injEq, and_true] at hc
      subst hc
      simp
    · intro hco
      simp only [List.cons.injEq, and_true] at hco
      rw [hco] at htag
      exact absurd htag (by decide)
    · intro hco
      simp only [List.cons.injEq, and_true] at hco
      rw [hco] at htag
      exact absurd htag (by decide)

/-- What a successful row parse does to the accumulated maze data: every cell
is valid, entities are appended exactly for the tag cells of the row, and the
spawn slots are written exactly at the `X`/`Y` cells. -/
theorem parseRow_spec (i : ℕ) : ∀ (cells : List (List Char)) (j : ℕ) (acc acc' : MazeData),
    parseRow i j cells acc = Except.ok acc' →
    (acc'.rows = acc.rows ∧ acc'.cols = acc.cols) ∧
    (∀ cell ∈ cells, isValidCell cell = true) ∧
    (∀ e ∈ acc.ents, e ∈ acc'.ents) ∧
    (∀ e ∈ acc'.ents, e ∈ acc.ents ∨
      (e.2.1 = i ∧ j ≤ e.2.2 ∧ e.2.2 < j + cells.length ∧
        cells.getD (e.2.2 - j) [] = [e.1] ∧ e.1 ∈ entityTags)) ∧
    (∀ k, k < cells.length → ∀ c : Char, cells.getD k [] = [c] → c ∈ entityTags →
      (c, i, j + k) ∈ acc'.ents) ∧
    (acc.spawnX ≠ none → acc'.spawnX ≠ none) ∧
    (∀ p, acc'.spawnX = some p → acc.spawnX = some p ∨
      (p.1 = i ∧ j ≤ p.2 ∧ p.2 < j + cells.length ∧ cells.getD (p.2 - j) [] = ['X'])) ∧
    (∀ k, k < cells.length → cells.getD k [] = ['X'] → acc'.spawnX ≠ none) ∧
    (acc.spawnY ≠ none → acc'.spawnY ≠ none) ∧
    (∀ p, acc'.spawnY = some p → acc.spawnY = some p ∨
      (p.1 = i ∧ j ≤ p.2 ∧ p.2 < j + cells.length ∧ cells.getD (p.2 - j) [] = ['Y'])) ∧
    (∀ k, k < cells.length → cells.getD k [] = ['Y'] → acc'.spawnY ≠ none) := by
  intro cells
  induction cells with
  | nil =>
    intro j acc acc' h
    rw [parseRow] at h
    have hacc : acc = acc' := Except.ok.injEq _ _ ▸ h
    subst hacc
    refine ⟨⟨rfl, rfl⟩, by simp, fun e he => he, fun e he => Or.inl he, by simp,
      fun hp => hp, fun p hp => Or.inl hp, by simp, fun hp => hp,
      fun p hp => Or.inl hp, by simp⟩
  | cons cell rest ih =>
    intro j acc acc' h
    rw [parseRow] at h
    cases hpc : parseCell i j cell acc with
    | error e => rw [hpc] at h; simp at h
    | ok acc1 =>
      rw [hpc] at h
      have h' : parseRow i (j + 1) rest acc1 = Except.ok acc' := h
      obtain ⟨cv, ⟨cr1, cr2⟩, cmono, cback, cexists, cpresX, cbackX, cexX,
        cpresY, cbackY, cexY⟩ := parseCell_effects i j cell acc acc1 hpc
      obtain ⟨⟨hr1, hr2⟩, hvalid, hmono, hback, hexists, hpresX, hbackX, hexX,
        hpresY, hbackY, hexY⟩ := ih (j + 1) acc1 acc' h'
      refine ⟨⟨hr1.trans cr1, hr2.trans cr2⟩, ?_, ?_, ?_, ?_, ?_, ?_, ?_, ?_, ?_, ?_⟩
      · intro cell' hc
        rcases List.mem_cons.1 hc with hc | hc
        · rw [hc]; exact cv
        · exact hvalid cell' hc
      · intro e he
        exact hmono e (cmono e he)
      · intro e he
        rcases hback e he with he1 | he1
        · rcases cback e he1 with he2 | ⟨hc1, hc2, hc3, hc4⟩
          · exact Or.inl he2
          · refine Or.inr ⟨hc3, ?_, ?_, ?_, hc2⟩
            · omega
            · simp only [List.length_cons]; omega
            · have h0 : e.2.2 - j = 0 := by omega
              rw [h0, List.getD_cons_zero, hc1]
        · obtain ⟨he2, he3, he4, he5, he6⟩ := he1
          refine Or.inr ⟨he2, by omega, ?_, ?_, he6⟩
          · simp at he4 ⊢; omega
          · have : e.2.2 - j = (e.2.2 - (j + 1)) + 1 := by omega
            rw [this, List.getD_cons_succ]
            exact he5
      · intro k hk c hcell htag
        cases k with
        | zero =>
          rw [List.getD_cons_zero] at hcell
          have := hmono _ (cexists c hcell htag)
          simpa using this
        | succ k' =>
          rw [List.getD_cons_succ] at hcell
          have hk' : k' < rest.length := by simp at hk; omega
          have := hexists k' hk' c hcell htag
          have harith : j + 1 + k' = j + (k' + 1) := by omega
          rwa [harith] at this
      · intro hp
        exact hpresX (cpresX hp)
      · intro p hp
        rcases hbackX p hp with hp1 | ⟨hp1, hp2, hp3, hp4⟩
        · rcases cbackX p hp1 with hp2 | ⟨hc1, hc2⟩
          · exact Or.inl hp2
          · have hp1' : p.1 = i := by rw [hc2]
            have hp2' : p.2 = j := by rw [hc2]
            refine Or.inr ⟨hp1', by omega, ?_, ?_⟩
            · simp only [List.length_cons]; omega
            · have h0 : p.2 - j = 0 := by omega
              rw [h0, List.getD_cons_zero]
              exact hc1
        · refine Or.inr ⟨hp1, by omega, ?_, ?_⟩
          · simp at hp3 ⊢; omega
          · have : p.2 - j = (p.2 - (j + 1)) + 1 := by omega
            rw [this, List.getD_cons_succ]
            exact hp4
      · intro k hk hcell
        cases k with
        | zero =>
          rw [List.getD_cons_zero] at hcell
          exact hpresX (by rw [cexX hcell]; simp)
        | succ k' =>
          rw [List.getD_cons_succ] at hcell
          exact hexX k' (by simp at hk; omega) hcell
      · intro hp
        exact hpresY (cpresY hp)
      · intro p hp
        rcases hbackY p hp with hp1 | ⟨hp1, hp2, hp3, hp4⟩
        · rcases cbackY p hp1 with hp2 | ⟨hc1, hc2⟩
          · exact Or.inl hp2
          · have hp1' : p.1 = i := by rw [hc2]
            have hp2' : p.2 = j := by rw [hc2]
            refine Or.inr ⟨hp1', by omega, ?_, ?_⟩
            · simp only [List.length_cons]; omega
            · have h0 : p.2 - j = 0 := by omega
              rw [h0, List.getD_cons_zero]
              exact hc1
        · refine Or.inr ⟨hp1, by omega, ?_, ?_⟩
          · simp at hp3 ⊢; omega
          · have : p.2 - j = (p.2 - (j + 1)) + 1 := by omega
            rw [this, List.getD_cons_succ]
            exact hp4
      · intro k hk hcell
        cases k with
        | zero =>
          rw [List.getD_cons_zero] at hcell
          exact hpresY (by rw [cexY hcell]; simp)
        | succ k' =>
          rw [List.getD_cons_succ] at hcell
          exact hexY k' (by simp at hk; omega) hcell

/-- What a successful multi-row parse does: every row has the expected cell
count, every cell is valid, entities are exactly the tag cells, and the spawn
slots are written exactly at the `X`/`Y` cells. -/
theorem parseRows_spec (cols : ℕ) : ∀ (rrows : List (List (List Char))) (i0 : ℕ)
    (acc acc' : MazeData),
    parseRows cols i0 rrows acc = Except.ok acc' →
    (acc'.rows = acc.rows ∧ acc'.cols = acc.cols) ∧
    (∀ row ∈ rrows, row.length = cols) ∧
    (∀ row ∈ rrows, ∀ cell ∈ row, isValidCell cell = true) ∧
    (∀ e ∈ acc.ents, e ∈ acc'.ents) ∧
    (∀ e ∈ acc'.ents, e ∈ acc.ents ∨
      (i0 ≤ e.2.1 ∧ e.2.1 < i0 + rrows.length ∧ e.2.2 < cols ∧
        (rrows.getD (e.2.1 - i0) []).getD e.2.2 [] = [e.1] ∧ e.1 ∈ entityTags)) ∧
    (∀ a, a < rrows.length → ∀ b, ∀ c : Char, (rrows.getD a []).getD b [] = [c] →
      c ∈ entityTags → b < cols → (c, i0 + a, b) ∈ acc'.ents) ∧
    (acc.spawnX ≠ none → acc'.spawnX ≠ none) ∧
    (∀ p, acc'.spawnX = some p → acc.spawnX = some p ∨
      (i0 ≤ p.1 ∧ p.1 < i0 + rrows.length ∧ p.2 < cols ∧
        (rrows.getD (p.1 - i0) []).getD p.2 [] = ['X'])) ∧
    (∀ a, a < rrows.length → ∀ b, b < cols → (rrows.getD a []).getD b [] = ['X'] →
      acc'.spawnX ≠ none) ∧
    (acc.spawnY ≠ none → acc'.spawnY ≠ none) ∧
    (∀ p, acc'.spawnY = some p → acc.spawnY = some p ∨
      (i0 ≤ p.1 ∧ p.1 < i0 + rrows.length ∧ p.2 < cols ∧
        (rrows.getD (p.1 - i0) []).getD p.2 [] = ['Y'])) ∧
    (∀ a, a < rrows.length → ∀ b, b < cols → (rrows.getD a []).getD b [] = ['Y'] →
      acc'.spawnY ≠ none) := by
  intro rrows
  induction rrows with
  | nil =>
    intro i0 acc acc' h
    rw [parseRows] at h
    have hacc : acc = acc' := Except.ok.injEq _ _ ▸ h
    subst hacc
    refine ⟨⟨rfl, rfl⟩, by simp, by simp, fun e he => he, fun e he => Or.inl he, by simp,
      fun hp => hp, fun p hp => Or.inl hp, by simp, fun hp => hp,
      fun p hp => Or.inl hp, by simp⟩
  | cons row rest ih =>
    intro i0 acc acc' h
    rw [parseRows] at h
    by_cases hlen : row.length ≠ cols
    · rw [if_pos hlen] at h; simp at h
    · rw [if_neg hlen] at h
      rw [not_not] at hlen
      cases hpr : parseRow i0 0 row acc with
      | error e => rw [hpr] at h; simp at h
      | ok acc1 =>
        rw [hpr] at h
        have h' : parseRows cols (i0 + 1) rest acc1 = Except.ok acc' := h
        obtain ⟨⟨cr1, cr2⟩, cvalid, cmono, cback, cexists, cpresX, cbackX, cexX,
          cpresY, cbackY, cexY⟩ := parseRow_spec i0 row 0 acc acc1 hpr
        obtain ⟨⟨hr1, hr2⟩, hlens, hvalid, hmono, hback, hexists, hpresX, hbackX, hexX,
          hpresY, hbackY, hexY⟩ := ih (i0 + 1) acc1 acc' h'
        refine ⟨⟨hr1.trans cr1, hr2.trans cr2⟩, ?_, ?_, ?_, ?_, ?_, ?_, ?_, ?_, ?_, ?_, ?_⟩
        · intro row' hr
          rcases List.mem_cons.1 hr with hr | hr
          · rw [hr]; exact hlen
          · exact hlens row' hr
        · intro row' hr
          rcases List.mem_cons.1 hr with hr | hr
          · rw [hr]; exact cvalid
          · exact hvalid row' hr
        · intro e he
          exact hmono e (cmono e he)
        · intro e he
          rcases hback e he with he1 | ⟨he2, he3, he4, he5⟩
          · rcases cback e he1 with he2 | ⟨hc1, hc2, hc3, hc4, hc5⟩
            · exact Or.inl he2
            · refine Or.inr ⟨by omega, by simp only [List.length_cons]; omega, ?_, ?_, hc5⟩
              · omega
              · have h0 : e.2.1 - i0 = 0 := by omega
                rw [h0, List.getD_cons_zero]
                simpa using hc4
          · refine Or.inr ⟨by omega, by simp only [List.length_cons]; omega, he4, ?_, he5.2⟩
            have h0 : e.2.1 - i0 = (e.2.1 - (i0 + 1)) + 1 := by omega
            rw [h0, List.getD_cons_succ]
            exact he5.1
        · intro a ha b c hcell htag hb
          cases a with
          | zero =>
            rw [List.getD_cons_zero] at hcell
            have hk : b < row.length := by omega
            have := hmono _ (cexists b hk c (by simpa using hcell) htag)
            simpa using this
          | succ a' =>
            rw [List.getD_cons_succ] at hcell
            have ha' : a' < rest.length := by simp at ha; omega
            have := hexists a' ha' b c hcell htag hb
            have harith : i0 + 1 + a' = i0 + (a' + 1) := by omega
            rwa [harith] at this
        · intro hp
          exact hpresX (cpresX hp)
        · intro p hp
          rcases hbackX p hp with hp1 | ⟨hp1, hp2, hp3, hp4⟩
          · rcases cbackX p hp1 with hp2 | ⟨hc1, hc2, hc3, hc4⟩
            · exact Or.inl hp2
            · refine Or.inr ⟨by omega, by simp only [List.length_cons]; omega, by omega, ?_⟩
              have h0 : p.1 - i0 = 0 := by omega
              rw [h0, List.getD_cons_zero]
              simpa using hc4
          · refine Or.inr ⟨by omega, by simp only [List.length_cons]; omega, hp3, ?_⟩
            have h0 : p.1 - i0 = (p.1 - (i0 + 1)) + 1 := by omega
            rw [h0, List.getD_cons_succ]
            exact hp4
        · intro a ha b hb hcell
          cases a with
          | zero =>
            rw [List.getD_cons_zero] at hcell
            have hk : b < row.length := by omega
            exact hpresX (cexX b hk hcell)
          | succ a' =>
            rw [List.getD_cons_succ] at hcell
            exact hexX a' (by simp at ha; omega) b hb hcell
        · intro hp
          exact hpresY (cpresY hp)
        · intro p hp
          rcases hbackY p hp with hp1 | ⟨hp1, hp2, hp3, hp4⟩
          · rcases cbackY p hp1 with hp2 | ⟨hc1, hc2, hc3, hc4⟩
            · exact Or.inl hp2
            · refine Or.inr ⟨by omega, by simp only [List.length_cons]; omega, by omega, ?_⟩
              have h0 : p.1 - i0 = 0 := by omega
              rw [h0, List.getD_cons_zero]
              simpa using hc4
          · refine Or.inr ⟨by omega, by simp only [List.length_cons]; omega, hp3, ?_⟩
            have h0 : p.1 - i0 = (p.1 - (i0 + 1)) + 1 := by omega
            rw [h0, List.getD_cons_succ]
            exact hp4
        · intro a ha b hb hcell
          cases a with
          | zero =>
            rw [List.getD_cons_zero] at hcell
            have hk : b < row.length := by omega
            exact hpresY (cexY b hk hcell)
          | succ a' =>
            rw [List.getD_cons_succ] at hcell
            exact hexY a' (by simp at ha; omega) b hb hcell

instance {e a : Type} [DecidableEq e] [DecidableEq a] : DecidableEq (Except e a) := fun x y =>
  match x, y with
  | Except.ok v, Except.ok w =>
    if h : v = w then isTrue (by rw [h]) else isFalse (fun hc => h (by injection hc))
  | Except.ok _, Except.error _ => isFalse (fun hc => Except.noConfusion hc)
  | Except.error _, Except.ok _ => isFalse (fun hc => Except.noConfusion hc)
  | Except.error v, Except.error w =>
    if h : v = w then isTrue (by rw [h]) else isFalse (fun hc => h (by injection hc))

/-- The successful cell shapes, as a plain disjunction. -/
theorem isValidCell_iff (cell : List Char) : isValidCell cell = true ↔
    (cell = [Maze.VOID] ∨ cell = ['X'] ∨ cell = ['Y'] ∨
      ∃ c : Char, cell = [c] ∧ c ∈ entityTags) := by
  rcases cell with _ | ⟨c, cr⟩
  · simp [isValidCell]
  · rcases cr with _ | ⟨c2, cr2⟩
    · simp only [isValidCell, Bool.or_eq_true, decide_eq_true_eq]
      constructor
      · intro h
        rcases h with ((h | h) | h) | h
        · exact Or.inl h
        · exact Or.inr (Or.inl h)
        · exact Or.inr (Or.inr (Or.inl h))
        · exact Or.inr (Or.inr (Or.inr ⟨c, rfl, h⟩))
      · intro h
        rcases h with h | h | h | ⟨c', hc, ht⟩
        · exact Or.inl (Or.inl (Or.inl h))
        · exact Or.inl (Or.inl (Or.inr h))
        · exact Or.inl (Or.inr h)
        · simp only [List.cons.injEq, and_true] at hc
          exact Or.inr (hc ▸ ht)
    · simp [isValidCell]

/-- An invalid cell makes parseCell raise the unknown-identifier error naming
the cell and its position. -/
theorem parseCell_invalid (i j : ℕ) (cell : List Char) (acc : MazeData)
    (h : isValidCell cell = false) :
    parseCell i j cell acc = Except.error (MazeErr.badChar cell i j) := by
  have hv : ¬ cell = [Maze.VOID] := fun hc => by rw [hc] at h; simp [isValidCell] at h
  have hx : ¬ cell = ['X'] := fun hc => by rw [hc] at h; simp [isValidCell] at h
  have hy : ¬ cell = ['Y'] := fun hc => by rw [hc] at h; simp [isValidCell] at h
  unfold parseCell
  rw [if_neg hv, if_neg hx, if_neg hy]
  rcases cell with _ | ⟨c, cr⟩
  · rfl
  · rcases cr with _ | ⟨c2, cr2⟩
    · have ht : ¬ c ∈ entityTags := by
        intro ht
        rw [isValidCell] at h
        simp [ht] at h
      show (if c ∈ entityTags then _ else _) = _
      rw [if_neg ht]
    · rfl

/-- A valid cell always parses. -/
theorem parseCell_valid (i j : ℕ) (cell : List Char) (acc : MazeData)
    (h : isValidCell cell = true) :
    ∃ acc', parseCell i j cell acc = Except.ok acc' := by
  unfold parseCell
  by_cases hv : cell = [Maze.VOID]
  · exact ⟨acc, by rw [if_pos hv]⟩
  · rw [if_neg hv]
    by_cases hx : cell = ['X']
    · exact ⟨_, by rw [if_pos hx]⟩
    · rw [if_neg hx]
      by_cases hy : cell = ['Y']
      · exact ⟨_, by rw [if_pos hy]⟩
      · rw [if_neg hy]
        rcases cell with _ | ⟨c, cr⟩
        · simp [isValidCell] at h
        · rcases cr with _ | ⟨c2, cr2⟩
          · have ht : c ∈ entityTags := by
              rcases (isValidCell_iff [c]).1 h with h1 | h1 | h1 | ⟨c', hc, ht⟩
              · exact absurd h1 hv
              · exact absurd h1 hx
              · exact absurd h1 hy
              · simp only [List.cons.injEq, and_true] at hc
                exact hc ▸ ht
            exact ⟨_, by show (if c ∈ entityTags then _ else _) = _; rw [if_pos ht]⟩
          · simp [isValidCell] at h

/-- A row of valid cells always parses. -/
theorem parseRow_valid (i : ℕ) : ∀ (cells : List (List Char)) (j : ℕ) (acc : MazeData),
    (∀ cell ∈ cells, isValidCell cell = true) →
    ∃ acc', parseRow i j cells acc = Except.ok acc' := by
  intro cells
  induction cells with
  | nil => intro j acc _; exact ⟨acc, rfl⟩
  | cons cell rest ih =>
    intro j acc hall
    obtain ⟨acc1, h1⟩ := parseCell_valid i j cell acc (hall cell (List.mem_cons_self cell rest))
    obtain ⟨acc', h2⟩ := ih (j + 1) acc1 (fun c hc => hall c (List.mem_cons_of_mem cell hc))
    refine ⟨acc', ?_⟩
    rw [parseRow, h1]
    exact h2

/-- A row containing an invalid cell makes parseRow raise the
unknown-identifier error at the first invalid cell. -/
theorem parseRow_invalid (i : ℕ) : ∀ (cells : List (List Char)) (j : ℕ) (acc : MazeData),
    (∃ cell ∈ cells, isValidCell cell = false) →
    ∃ (j' : ℕ) (cellv : List Char),
      parseRow i j cells acc = Except.error (MazeErr.badChar cellv i j') ∧
      j ≤ j' ∧ j' < j + cells.length ∧ cells.getD (j' - j) [] = cellv ∧
      isValidCell cellv = false := by
  intro cells
  induction cells with
  | nil => intro j acc h; simp at h
  | cons cell rest ih =>
    intro j acc h
    by_cases hv : isValidCell cell = false
    · refine ⟨j, cell, ?_, le_refl j, by simp only [List.length_cons]; omega, ?_, hv⟩
      · rw [parseRow, parseCell_invalid i j cell acc hv]
      · simp
    · rw [Bool.not_eq_false] at hv
      obtain ⟨acc1, h1⟩ := parseCell_valid i j cell acc hv
      have hrest : ∃ cellv ∈ rest, isValidCell cellv = false := by
        rcases h with ⟨cellv, hmem, hbad⟩
        rcases List.mem_cons.1 hmem with hmem | hmem
        · rw [hmem] at hbad; simp [hv] at hbad
        · exact ⟨cellv, hmem, hbad⟩
      obtain ⟨j', cellv, h2, h3, h4, h5, h6⟩ := ih (j + 1) acc1 hrest
      refine ⟨j', cellv, ?_, by omega, by simp only [List.length_cons]; omega, ?_, h6⟩
      · rw [parseRow, h1]
        exact h2
      · have h0 : j' - j = (j' - (j + 1)) + 1 := by omega
        rw [h0, List.getD_cons_succ]
        exact h5

/-- Rows of the right shape whose cells are all valid always parse. -/
theorem parseRows_valid (cols : ℕ) : ∀ (rrows : List (List (List Char))) (i0 : ℕ)
    (acc : MazeData),
    (∀ row ∈ rrows, row.length = cols) →
    (∀ row ∈ rrows, ∀ cell ∈ row, isValidCell cell = true) →
    ∃ acc', parseRows cols i0 rrows acc = Except.ok acc' := by
  intro rrows
  induction rrows with
  | nil => intro i0 acc _ _; exact ⟨acc, rfl⟩
  | cons row rest ih =>
    intro i0 acc hlens hall
    obtain ⟨acc1, h1⟩ := parseRow_valid i0 row 0 acc (hall row (List.mem_cons_self row rest))
    obtain ⟨acc', h2⟩ := ih (i0 + 1) acc1 (fun r hr => hlens r (List.mem_cons_of_mem row hr))
      (fun r hr => hall r (List.mem_cons_of_mem row hr))
    refine ⟨acc', ?_⟩
    rw [parseRows, if_neg (by rw [not_not]; exact hlens row (List.mem_cons_self row rest)), h1]
    exact h2

/-- If every row has the right shape and some cell is invalid, parseRows
raises the unknown-identifier error at an invalid cell, naming the cell and
its absolute row/column position. -/
theorem parseRows_invalid (cols : ℕ) : ∀ (rrows : List (List (List Char))) (i0 : ℕ)
    (acc : MazeData),
    (∀ row ∈ rrows, row.length = cols) →
    (∃ row ∈ rrows, ∃ cell ∈ row, isValidCell cell = false) →
    ∃ (a b : ℕ) (cellv : List Char),
      parseRows cols i0 rrows acc = Except.error (MazeErr.badChar cellv (i0 + a) b) ∧
      a < rrows.length ∧ b < cols ∧ (rrows.getD a []).getD b [] = cellv ∧
      isValidCell cellv = false := by
  intro rrows
  induction rrows with
  | nil => intro i0 acc _ h; simp at h
  | cons row rest ih =>
    intro i0 acc hlens h
    have hlen : row.length = cols := hlens row (List.mem_cons_self row rest)
    by_cases hrow : ∃ cell ∈ row, isValidCell cell = false
    · obtain ⟨j', cellv, h1, h2, h3, h4, h5⟩ := parseRow_invalid i0 row 0 acc hrow
      refine ⟨0, j', cellv, ?_, by simp, by omega, ?_, h5⟩
      · rw [parseRows, if_neg (by rw [not_not]; exact hlen), h1]
        simp
      · rw [List.getD_cons_zero]
        simpa using h4
    · have hallrow : ∀ cell ∈ row, isValidCell cell = true := by
        intro cell hc
        rcases Bool.eq_false_or_eq_true (isValidCell cell) with hb | hb
        · exact hb
        · exact absurd ⟨cell, hc, hb⟩ hrow
      obtain ⟨acc1, h1⟩ := parseRow_valid i0 row 0 acc hallrow
      have hrest : ∃ r ∈ rest, ∃ cell ∈ r, isValidCell cell = false := by
        rcases h with ⟨r, hmem, hbad⟩
        rcases List.mem_cons.1 hmem with hmem | hmem
        · exact absurd (hmem ▸ hbad) hrow
        · exact ⟨r, hmem, hbad⟩
      obtain ⟨a, b, cellv, h2, h3, h4, h5, h6⟩ := ih (i0 + 1) acc1
        (fun r hr => hlens r (List.mem_cons_of_mem row hr)) hrest
      refine ⟨a + 1, b, cellv, ?_, by simp only [List.length_cons]; omega, h4, ?_, h6⟩
      · rw [parseRows, if_neg (by rw [not_not]; exact hlen), h1]
        have harith : i0 + (a + 1) = i0 + 1 + a := by omega
        rw [harith]
        exact h2
      · rw [List.getD_cons_succ]
        exact h5

/-- C9 (amended): when every row of the description has the first row's cell
count, a description containing an invalid cell makes Maze.unserialize raise
the maze-description error naming an offending cell and its row/column; and
every description with a mismatched row raises a maze-description error (but
when the mismatched row comes before the first invalid character in parse
order, that error is the row-shape error, which does not name the character).
In both cases no maze value is returned. -/
theorem C9_unserialize_errors (desc : List Char) :
    ((∀ row ∈ Maze.toMatrix desc, row.length = ((Maze.toMatrix desc).headD []).length) →
     (∃ row ∈ Maze.toMatrix desc, ∃ cell ∈ row, isValidCell cell = false) →
     ∃ (i j : ℕ) (cellv : List Char),
       Maze.unserialize desc = Except.error (MazeErr.badChar cellv i j) ∧
       i < (Maze.toMatrix desc).length ∧ j < ((Maze.toMatrix desc).headD []).length ∧
       cellAt (Maze.toMatrix desc) i j = cellv ∧ isValidCell cellv = false) ∧
    ((∃ row ∈ Maze.toMatrix desc, row.length ≠ ((Maze.toMatrix desc).headD []).length) →
     ∃ e, Maze.unserialize desc = Except.error e) := by
  constructor
  · intro hlens hbad
    obtain ⟨a, b, cellv, h1, h2, h3, h4, h5⟩ := parseRows_invalid
      ((Maze.toMatrix desc).headD []).length (Maze.toMatrix desc) 0
      { rows := (Maze.toMatrix desc).length,
        cols := ((Maze.toMatrix desc).headD []).length, ents := [],
        spawnX := none, spawnY := none } hlens hbad
    have h0 : 0 + a = a := by omega
    rw [h0] at h1
    refine ⟨a, b, cellv, ?_, h2, h3, h4, h5⟩
    rw [Maze.unserialize]
    exact h1
  · intro hbad
    cases hu : Maze.unserialize desc with
    | error e => exact ⟨e, rfl⟩
    | ok m =>
      rw [Maze.unserialize] at hu
      obtain ⟨r, hmem, hne⟩ := hbad
      have := (parseRows_spec ((Maze.toMatrix desc).headD []).length (Maze.toMatrix desc) 0
        _ m hu).2.1 r hmem
      exact absurd this hne

/-- C9 counterexample: the description `S|S` + newline + `Z` contains the
invalid cell `Z`, yet the error raised is the row-shape error for line 1 —
not an error naming the offending character. -/
theorem C9_cex :
    Maze.unserialize ['S', '|', 'S', nlChar, 'Z'] = Except.error (MazeErr.badRow 1) ∧
    ['Z'] ∈ (Maze.toMatrix ['S', '|', 'S', nlChar, 'Z']).getD 1 [] ∧
    isValidCell ['Z'] = false := by
  refine ⟨by decide, by decide, by decide⟩

/-- Witness for C9: an unknown cell `Z` in a well-shaped description raises
the unknown-identifier error at row 0, column 1, and a mismatched second row
raises a maze-description error. -/
theorem C9_witness :
    (∃ (i j : ℕ) (cellv : List Char),
      Maze.unserialize ['S', '|', 'Z'] = Except.error (MazeErr.badChar cellv i j) ∧
      i < (Maze.toMatrix ['S', '|', 'Z']).length ∧
      j < ((Maze.toMatrix ['S', '|', 'Z']).headD []).length ∧
      cellAt (Maze.toMatrix ['S', '|', 'Z']) i j = cellv ∧ isValidCell cellv = false) ∧
    (∃ e, Maze.unserialize ['S', '|', 'S', nlChar, 'Z'] = Except.error e) := by
  constructor
  · exact (C9_unserialize_errors ['S', '|', 'Z']).1 (by decide)
      ⟨[['S'], ['Z']], by decide, ['Z'], by decide, by decide⟩
  · exact (C9_unserialize_errors ['S', '|', 'S', nlChar, 'Z']).2
      ⟨[['Z']], by decide, by decide⟩

/-- Shape of a render grid: row count and the length of every row. -/
def gridShape (g : List (List Char)) (R C : ℕ) : Prop :=
  g.length = R ∧ ∀ i, i < R → (g.getD i []).length = C

theorem getD_set_row_ne (g : List (List Char)) (i i' : ℕ) (row : List Char) (h : i ≠ i') :
    (g.set i row).getD i' [] = g.getD i' [] := by
  rw [List.getD_eq_getElem?_getD, List.getD_eq_getElem?_getD, List.getElem?_set_ne h]

theorem getD_set_row_eq (g : List (List Char)) (i : ℕ) (row : List Char) (h : i < g.length) :
    (g.set i row).getD i [] = row := by
  rw [List.getD_eq_getElem?_getD, List.getElem?_set_eq_of_lt row h]
  rfl

/-- Pointwise effect of one `static_repr[i][j] = c` assignment. -/
theorem gridGet_place (g : List (List Char)) (i j : ℕ) (c : Char) (i' j' : ℕ) :
    gridGet (place g i j c) i' j' =
      if i' = i ∧ j' = j ∧ i < g.length ∧ j < (g.getD i []).length then c
      else gridGet g i' j' := by
  by_cases hi : i' = i
  · subst hi
    by_cases hlen : i' < g.length
    · have hrow : (place g i' j c).getD i' [] = (g.getD i' []).set j c :=
        getD_set_row_eq _ _ _ hlen
      unfold gridGet
      rw [hrow]
      by_cases hj : j' = j
      · subst hj
        by_cases hjl : j' < (g.getD i' []).length
        · rw [List.getD_eq_getElem?_getD, List.getElem?_set_eq_of_lt c hjl,
            if_pos ⟨rfl, rfl, hlen, hjl⟩]
          rfl
        · rw [List.set_eq_of_length_le (by omega), if_neg (fun hc => hjl hc.2.2.2)]
      · rw [List.getD_eq_getElem?_getD, List.getElem?_set_ne (fun hc => hj hc.symm),
          ← List.getD_eq_getElem?_getD, if_neg (fun hc => hj hc.2.1)]
    · have hnoop : place g i' j c = g := by
        unfold place
        exact List.set_eq_of_length_le (by omega)
      rw [hnoop, if_neg (fun hc => hlen hc.2.2.1)]
  · have hrow : (place g i j c).getD i' [] = g.getD i' [] :=
      getD_set_row_ne g i i' _ (fun hc => hi hc.symm)
    unfold gridGet
    rw [hrow, if_neg (fun hc => hi hc.1)]

theorem gridShape_place (g : List (List Char)) (R C i j : ℕ) (c : Char)
    (h : gridShape g R C) : gridShape (place g i j c) R C := by
  obtain ⟨h1, h2⟩ := h
  refine ⟨by rw [place, List.length_set, h1], ?_⟩
  intro i' hi'
  by_cases hi : i = i'
  · subst hi
    by_cases hlen : i < g.length
    · rw [place, getD_set_row_eq _ _ _ hlen, List.length_set]
      exact h2 i hi'
    · rw [place, List.set_eq_of_length_le (by omega)]
      exact h2 i hi'
  · rw [place, getD_set_row_ne _ _ _ _ hi]
    exact h2 i' hi'

/-- The last entity tag written onto tile (i, j) by the placement fold. -/
def spotAux (init : Option Char) (ents : List (Char × ℕ × ℕ)) (i j : ℕ) : Option Char :=
  ents.foldl (fun r e => if e.2.1 = i ∧ e.2.2 = j then some e.1 else r) init

theorem spotAux_cons (init : Option Char) (e : Char × ℕ × ℕ) (ents : List (Char × ℕ × ℕ))
    (i j : ℕ) : spotAux init (e :: ents) i j =
      spotAux (if e.2.1 = i ∧ e.2.2 = j then some e.1 else init) ents i j := rfl

theorem spotAux_init (ents : List (Char × ℕ × ℕ)) : ∀ (init : Option Char) (i j : ℕ),
    spotAux init ents i j =
      match spotAux none ents i j with
      | some c => some c
      | none => init := by
  induction ents with
  | nil => intro init i j; simp [spotAux]
  | cons e rest ih =>
    intro init i j
    rw [spotAux_cons, spotAux_cons, ih, ih (if e.2.1 = i ∧ e.2.2 = j then some e.1 else none)]
    by_cases he : e.2.1 = i ∧ e.2.2 = j
    · simp only [if_pos he]
      cases spotAux none rest i j <;> rfl
    · simp only [if_neg he]
      cases spotAux none rest i j <;> rfl

theorem spotAux_none_init (ents : List (Char × ℕ × ℕ)) (i j : ℕ)
    (h : spotAux none ents i j = none) (init : Option Char) :
    spotAux init ents i j = init := by
  rw [spotAux_init, h]

theorem spotAux_some_init (ents : List (Char × ℕ × ℕ)) (i j : ℕ) (c : Char)
    (h : spotAux none ents i j = some c) (init : Option Char) :
    spotAux init ents i j = some c := by
  rw [spotAux_init, h]

theorem spotAux_mem (ents : List (Char × ℕ × ℕ)) : ∀ (i j : ℕ) (c : Char),
    spotAux none ents i j = some c → (c, i, j) ∈ ents := by
  induction ents with
  | nil => intro i j c h; simp [spotAux] at h
  | cons e rest ih =>
    intro i j c h
    rw [spotAux_cons, spotAux_init] at h
    rcases hrest : spotAux none rest i j with _ | c'
    · rw [hrest] at h
      by_cases he : e.2.1 = i ∧ e.2.2 = j
      · rw [if_pos he] at h
        simp only [Option.some.injEq] at h
        refine List.mem_cons.2 (Or.inl ?_)
        have he' : e = (c, i, j) := by
          rw [Prod.ext_iff, Prod.ext_iff]
          exact ⟨h, he.1, he.2⟩
        rw [he']
      · rw [if_neg he] at h
        simp at h
    · rw [hrest] at h
      simp at h
      exact List.mem_cons_of_mem e (ih i j c (by rw [hrest, h]))

theorem spotAux_ne_none (ents : List (Char × ℕ × ℕ)) (i j : ℕ) (c : Char)
    (h : (c, i, j) ∈ ents) : spotAux none ents i j ≠ none := by
  induction ents with
  | nil => simp at h
  | cons e rest ih =>
    rw [spotAux_cons, spotAux_init]
    rcases List.mem_cons.1 h with he | he
    · rcases hrest : spotAux none rest i j with _ | c'
      · rw [← he]
        simp
      · simp
    · have := ih he
      rcases hrest : spotAux none rest i j with _ | c'
      · exact absurd hrest this
      · simp

/-- When every entity on tile (i, j) carries the same tag, the last write is
that tag. -/
theorem spotAux_of_mem (ents : List (Char × ℕ × ℕ)) (i j : ℕ) (c : Char)
    (hmem : (c, i, j) ∈ ents) (huniq : ∀ c', (c', i, j) ∈ ents → c' = c) :
    spotAux none ents i j = some c := by
  rcases hspot : spotAux none ents i j with _ | c'
  · exact absurd hspot (spotAux_ne_none ents i j c hmem)
  · rw [huniq c' (spotAux_mem ents i j c' hspot)]

theorem gridShape_placeEnts (R C : ℕ) (ents : List (Char × ℕ × ℕ)) : ∀ g,
    gridShape g R C → gridShape (placeEnts ents g) R C := by
  induction ents with
  | nil => intro g h; exact h
  | cons e rest ih =>
    intro g h
    exact ih _ (gridShape_place g R C e.2.1 e.2.2 e.1 h)

/-- Pointwise value of the grid after the entity-placement fold. -/
theorem gridGet_placeEnts (R C : ℕ) (ents : List (Char × ℕ × ℕ))
    (hb : ∀ e ∈ ents, e.2.1 < R ∧ e.2.2 < C) : ∀ g, gridShape g R C →
    ∀ i j, i < R → j < C →
    gridGet (placeEnts ents g) i j =
      match spotAux none ents i j with
      | some c => c
      | none => gridGet g i j := by
  induction ents with
  | nil => intro g _ i j _ _; simp [placeEnts, spotAux]
  | cons e rest ih =>
    intro g hg i j hi hj
    have hstep : placeEnts (e :: rest) g = placeEnts rest (place g e.2.1 e.2.2 e.1) := rfl
    have hbe := hb e (List.mem_cons_self e rest)
    have hbound1 : e.2.1 < g.length := by rw [hg.1]; exact hbe.1
    have hbound2 : e.2.2 < (g.getD e.2.1 []).length := by
      rw [hg.2 e.2.1 hbe.1]; exact hbe.2
    rw [hstep, ih (fun x hx => hb x (List.mem_cons_of_mem e hx)) _
      (gridShape_place g R C e.2.1 e.2.2 e.1 hg) i j hi hj]
    rw [spotAux_cons]
    rcases hrest : spotAux none rest i j with _ | c'
    · simp only [spotAux_none_init rest i j hrest]
      rw [gridGet_place]
      by_cases he : e.2.1 = i ∧ e.2.2 = j
      · rw [if_pos ⟨he.1.symm, he.2.symm, hbound1, hbound2⟩]
        simp [he]
      · rw [if_neg (fun hc => he ⟨hc.1.symm, hc.2.1.symm⟩)]
        simp [he]
    · simp only [spotAux_some_init rest i j c' hrest]

theorem gridShape_replicate (R C : ℕ) :
    gridShape (List.replicate R (List.replicate C Maze.VOID)) R C := by
  refine ⟨List.length_replicate .., ?_⟩
  intro i hi
  rw [List.getD_eq_getElem?_getD, List.getElem?_replicate, if_pos hi]
  simp

theorem gridGet_replicate (R C i j : ℕ) (hi : i < R) (hj : j < C) :
    gridGet (List.replicate R (List.replicate C Maze.VOID)) i j = Maze.VOID := by
  have hrow : (List.replicate R (List.replicate C Maze.VOID)).getD i [] =
      List.replicate C Maze.VOID := by
    rw [List.getD_eq_getElem?_getD, List.getElem?_replicate, if_pos hi]
    rfl
  unfold gridGet
  rw [hrow, List.getD_eq_getElem?_getD, List.getElem?_replicate, if_pos hj]
  rfl

/-- At most one cell of the matrix holds the given spawn letter. -/
def spawnUnique (matrix : List (List (List Char))) (letter : Char) : Prop :=
  ∀ a b a' b', cellAt matrix a b = [letter] → cellAt matrix a' b' = [letter] →
    a = a' ∧ b = b'

theorem getD_lt {α : Type} (l : List α) (d : α) (n : ℕ) (h : n < l.length) :
    l.getD n d = l[n] := by
  rw [List.getD_eq_getElem?_getD, List.getElem?_eq_getElem h]
  rfl

/-- Pointwise value and shape of the grid rendered by Maze.__str__. -/
theorem gridGet_renderGrid (m : MazeData) (R C : ℕ)
    (hrows : m.rows = R) (hcols : m.cols = C)
    (hb : ∀ e ∈ m.ents, e.2.1 < R ∧ e.2.2 < C)
    (hbX : ∀ p, m.spawnX = some p → p.1 < R ∧ p.2 < C)
    (hbY : ∀ p, m.spawnY = some p → p.1 < R ∧ p.2 < C) :
    gridShape (Maze.renderGrid m) R C ∧
    ∀ i j, i < R → j < C →
    gridGet (Maze.renderGrid m) i j =
      (if m.spawnY = some (i, j) then 'Y'
       else if m.spawnX = some (i, j) then 'X'
       else match spotAux none m.ents i j with
            | some c => c
            | none => Maze.VOID) := by
  have shape0 : gridShape (List.replicate m.rows (List.replicate m.cols Maze.VOID)) R C := by
    rw [hrows, hcols]
    exact gridShape_replicate R C
  have shape1 : gridShape
      (placeEnts m.ents (List.replicate m.rows (List.replicate m.cols Maze.VOID))) R C :=
    gridShape_placeEnts R C m.ents _ shape0
  have hval1 : ∀ i j, i < R → j < C →
      gridGet (placeEnts m.ents (List.replicate m.rows (List.replicate m.cols Maze.VOID))) i j =
      match spotAux none m.ents i j with
      | some c => c
      | none => Maze.VOID := by
    intro i j hi hj
    rw [gridGet_placeEnts R C m.ents hb _ shape0 i j hi hj]
    rcases hspot : spotAux none m.ents i j with _ | c
    · simp only [hspot]
      rw [hrows, hcols]
      exact gridGet_replicate R C i j hi hj
    · simp only [hspot]
  constructor
  · rcases hsy : m.spawnY with _ | q <;> rcases hsx : m.spawnX with _ | p <;>
      simp only [Maze.renderGrid, hsx, hsy]
    · exact shape1
    · exact gridShape_place _ R C p.1 p.2 'X' shape1
    · exact gridShape_place _ R C q.1 q.2 'Y' shape1
    · exact gridShape_place _ R C q.1 q.2 'Y' (gridShape_place _ R C p.1 p.2 'X' shape1)
  · intro i j hi hj
    rcases hsy : m.spawnY with _ | q <;> rcases hsx : m.spawnX with _ | p
    · simp only [Maze.renderGrid, hsx, hsy]
      rw [hval1 i j hi hj,
        if_neg (fun hc => Option.noConfusion hc), if_neg (fun hc => Option.noConfusion hc)]
    · simp only [Maze.renderGrid, hsx, hsy]
      have hp := hbX p hsx
      rw [gridGet_place, if_neg (fun hc => Option.noConfusion hc)]
      by_cases hpij : p = (i, j)
      · rw [if_pos ⟨by rw [hpij], by rw [hpij], by rw [shape1.1]; exact hp.1,
          by rw [shape1.2 p.1 hp.1]; exact hp.2⟩, if_pos (by rw [hpij])]
      · rw [if_neg (fun hc => hpij (by rw [Prod.ext_iff]; exact ⟨hc.1.symm, hc.2.1.symm⟩)),
          if_neg (fun hc => hpij (Option.some_injective _ hc))]
        exact hval1 i j hi hj
    · simp only [Maze.renderGrid, hsx, hsy]
      have hq := hbY q hsy
      rw [gridGet_place]
      by_cases hqij : q = (i, j)
      · rw [if_pos ⟨by rw [hqij], by rw [hqij], by rw [shape1.1]; exact hq.1,
          by rw [shape1.2 q.1 hq.1]; exact hq.2⟩, if_pos (by rw [hqij])]
      · rw [if_neg (fun hc => hqij (by rw [Prod.ext_iff]; exact ⟨hc.1.symm, hc.2.1.symm⟩)),
          if_neg (fun hc => hqij (Option.some_injective _ hc)),
          if_neg (fun hc => Option.noConfusion hc)]
        exact hval1 i j hi hj
    · simp only [Maze.renderGrid, hsx, hsy]
      have hp := hbX p hsx
      have hq := hbY q hsy
      have shape2 : gridShape (place
          (placeEnts m.ents (List.replicate m.rows (List.replicate m.cols Maze.VOID)))
          p.1 p.2 'X') R C :=
        gridShape_place _ R C p.1 p.2 'X' shape1
      rw [gridGet_place]
      by_cases hqij : q = (i, j)
      · rw [if_pos ⟨by rw [hqij], by rw [hqij], by rw [shape2.1]; exact hq.1,
          by rw [shape2.2 q.1 hq.1]; exact hq.2⟩, if_pos (by rw [hqij])]
      · rw [if_neg (fun hc => hqij (by rw [Prod.ext_iff]; exact ⟨hc.1.symm, hc.2.1.symm⟩)),
          if_neg (fun hc => hqij (Option.some_injective _ hc))]
        rw [gridGet_place]
        by_cases hpij : p = (i, j)
        · rw [if_pos ⟨by rw [hpij], by rw [hpij], by rw [shape1.1]; exact hp.1,
            by rw [shape1.2 p.1 hp.1]; exact hp.2⟩, if_pos (by rw [hpij])]
        · rw [if_neg (fun hc => hpij (by rw [Prod.ext_iff]; exact ⟨hc.1.symm, hc.2.1.symm⟩)),
            if_neg (fun hc => hpij (Option.some_injective _ hc))]
          exact hval1 i j hi hj

/-- The facts a successful Maze.unserialize guarantees, in matrix terms. -/
theorem unserialize_facts (desc : List Char) (m : MazeData)
    (hu : Maze.unserialize desc = Except.ok m) :
    m.rows = (Maze.toMatrix desc).length ∧
    m.cols = ((Maze.toMatrix desc).headD []).length ∧
    (∀ row ∈ Maze.toMatrix desc, row.length = ((Maze.toMatrix desc).headD []).length) ∧
    (∀ row ∈ Maze.toMatrix desc, ∀ cell ∈ row, isValidCell cell = true) ∧
    (∀ e ∈ m.ents, e.2.1 < (Maze.toMatrix desc).length ∧
      e.2.2 < ((Maze.toMatrix desc).headD []).length ∧
      cellAt (Maze.toMatrix desc) e.2.1 e.2.2 = [e.1] ∧ e.1 ∈ entityTags) ∧
    (∀ a b (c : Char), a < (Maze.toMatrix desc).length →
      b < ((Maze.toMatrix desc).headD []).length →
      cellAt (Maze.toMatrix desc) a b = [c] → c ∈ entityTags → (c, a, b) ∈ m.ents) ∧
    (∀ p, m.spawnX = some p → p.1 < (Maze.toMatrix desc).length ∧
      p.2 < ((Maze.toMatrix desc).headD []).length ∧
      cellAt (Maze.toMatrix desc) p.1 p.2 = ['X']) ∧
    (∀ a b, a < (Maze.toMatrix desc).length → b < ((Maze.toMatrix desc).headD []).length →
      cellAt (Maze.toMatrix desc) a b = ['X'] → m.spawnX ≠ none) ∧
    (∀ p, m.spawnY = some p → p.1 < (Maze.toMatrix desc).length ∧
      p.2 < ((Maze.toMatrix desc).headD []).length ∧
      cellAt (Maze.toMatrix desc) p.1 p.2 = ['Y']) ∧
    (∀ a b, a < (Maze.toMatrix desc).length → b < ((Maze.toMatrix desc).headD []).length →
      cellAt (Maze.toMatrix desc) a b = ['Y'] → m.spawnY ≠ none) := by
  have hu' : parseRows ((Maze.toMatrix desc).headD []).length 0 (Maze.toMatrix desc)
      { rows := (Maze.toMatrix desc).length, cols := ((Maze.toMatrix desc).headD []).length,
        ents := [], spawnX := none, spawnY := none } = Except.ok m := hu
  obtain ⟨⟨s1, s2⟩, slens, svalid, _, sback, sexists, _, sbackX, sexX, _, sbackY, sexY⟩ :=
    parseRows_spec ((Maze.toMatrix desc).headD []).length (Maze.toMatrix desc) 0 _ m hu'
  refine ⟨s1, s2, slens, svalid, ?_, ?_, ?_, ?_, ?_, ?_⟩
  · intro e he
    rcases sback e he with h | ⟨h1, h2, h3, h4, h5⟩
    · simp at h
    · refine ⟨by omega, h3, ?_, h5⟩
      have h0 : e.2.1 - 0 = e.2.1 := by omega
      rw [h0] at h4
      exact h4
  · intro a b c ha hb hcell htag
    have := sexists a ha b c hcell htag hb
    simpa using this
  · intro p hp
    rcases sbackX p hp with h | ⟨h1, h2, h3, h4⟩
    · simp at h
    · refine ⟨by omega, h3, ?_⟩
      have h0 : p.1 - 0 = p.1 := by omega
      rw [h0] at h4
      exact h4
  · intro a b ha hb hcell
    exact sexX a ha b hb hcell
  · intro p hp
    rcases sbackY p hp with h | ⟨h1, h2, h3, h4⟩
    · simp at h
    · refine ⟨by omega, h3, ?_⟩
      have h0 : p.1 - 0 = p.1 := by omega
      rw [h0] at h4
      exact h4
  · intro a b ha hb hcell
    exact sexY a ha b hb hcell

/-- Rendering a freshly unserialized maze reproduces the description's cell
matrix character by character. -/
theorem matrix_eq_render (desc : List Char) (m : MazeData)
    (hX : spawnUnique (Maze.toMatrix desc) 'X')
    (hY : spawnUnique (Maze.toMatrix desc) 'Y')
    (hu : Maze.unserialize desc = Except.ok m) :
    Maze.toMatrix desc = (Maze.renderGrid m).map (List.map (fun c => [c])) := by
  obtain ⟨frows, fcols, flens, fvalid, fback, fexists, fbackX, fexX, fbackY, fexY⟩ :=
    unserialize_facts desc m hu
  obtain ⟨gshape, gval⟩ := gridGet_renderGrid m (Maze.toMatrix desc).length
    ((Maze.toMatrix desc).headD []).length frows fcols
    (fun e he => ⟨(fback e he).1, (fback e he).2.1⟩)
    (fun p hp => ⟨(fbackX p hp).1, (fbackX p hp).2.1⟩)
    (fun p hp => ⟨(fbackY p hp).1, (fbackY p hp).2.1⟩)
  have hpoint : ∀ i j, i < (Maze.toMatrix desc).length →
      j < ((Maze.toMatrix desc).headD []).length →
      cellAt (Maze.toMatrix desc) i j = [gridGet (Maze.renderGrid m) i j] := by
    intro i j hi hj
    have hrowmem : (Maze.toMatrix desc).getD i [] ∈ Maze.toMatrix desc := by
      rw [getD_lt _ _ _ hi]
      exact List.getElem_mem hi
    have hrowlen : j < ((Maze.toMatrix desc).getD i []).length := by
      rw [flens _ hrowmem]
      exact hj
    have hcellmem : cellAt (Maze.toMatrix desc) i j ∈ (Maze.toMatrix desc).getD i [] := by
      rw [cellAt, getD_lt ((Maze.toMatrix desc).getD i []) [] j hrowlen]
      exact List.getElem_mem hrowlen
    have hvc := fvalid _ hrowmem _ hcellmem
    rw [gval i j hi hj]
    rcases (isValidCell_iff _).1 hvc with hcv | hcv | hcv | ⟨c, hcv, htag⟩
    · have hny : ¬ m.spawnY = some (i, j) := by
        intro hc
        have hfy : cellAt (Maze.toMatrix desc) i j = ['Y'] := (fbackY _ hc).2.2
        rw [hcv] at hfy
        exact absurd hfy (by decide)
      have hnx : ¬ m.spawnX = some (i, j) := by
        intro hc
        have hfx : cellAt (Maze.toMatrix desc) i j = ['X'] := (fbackX _ hc).2.2
        rw [hcv] at hfx
        exact absurd hfx (by decide)
      rw [if_neg hny, if_neg hnx]
      rcases hspot : spotAux none m.ents i j with _ | c
      · simp only [hspot]
        exact hcv
      · exfalso
        have hmem := spotAux_mem m.ents i j c hspot
        have hfacts := (fback _ hmem).2.2
        have hcell2 : cellAt (Maze.toMatrix desc) i j = [c] := hfacts.1
        have htag2 : c ∈ entityTags := hfacts.2
        rw [hcv] at hcell2
        have hc' : c = Maze.VOID := by
          injection hcell2 with h1 _
          exact h1.symm
        rw [hc'] at htag2
        exact absurd htag2 (by decide)
    · have hsome := fexX i j hi hj hcv
      rcases hsx : m.spawnX with _ | p
      · exact absurd hsx hsome
      · have hp := fbackX p hsx
        have huniq := hX i j p.1 p.2 hcv hp.2.2
        have hpij : p = (i, j) := by
          rw [Prod.ext_iff]
          exact ⟨huniq.1.symm, huniq.2.symm⟩
        have hny : ¬ m.spawnY = some (i, j) := by
          intro hc
          have hfy : cellAt (Maze.toMatrix desc) i j = ['Y'] := (fbackY _ hc).2.2
          rw [hcv] at hfy
          exact absurd hfy (by decide)
        rw [if_neg hny, if_pos (by rw [hpij])]
        exact hcv
    · have hsome := fexY i j hi hj hcv
      rcases hsy : m.spawnY with _ | q
      · exact absurd hsy hsome
      · have hq := fbackY q hsy
        have huniq := hY i j q.1 q.2 hcv hq.2.2
        have hqij : q = (i, j) := by
          rw [Prod.ext_iff]
          exact ⟨huniq.1.symm, huniq.2.symm⟩
        rw [if_pos (by rw [hqij])]
        exact hcv
    · have hny : ¬ m.spawnY = some (i, j) := by
        intro hc
        have hfy : cellAt (Maze.toMatrix desc) i j = ['Y'] := (fbackY _ hc).2.2
        rw [hcv] at hfy
        have hcy : c = 'Y' := by
          injection hfy with h1 _
        rw [hcy] at htag
        exact absurd htag (by decide)
      have hnx : ¬ m.spawnX = some (i, j) := by
        intro hc
        have hfx : cellAt (Maze.toMatrix desc) i j = ['X'] := (fbackX _ hc).2.2
        rw [hcv] at hfx
        have hcx : c = 'X' := by
          injection hfx with h1 _
        rw [hcx] at htag
        exact absurd htag (by decide)
      have hmem := fexists i j c hi hj hcv htag
      have huniq : ∀ c', (c', i, j) ∈ m.ents → c' = c := by
        intro c' hmem'
        have hcell2 : cellAt (Maze.toMatrix desc) i j = [c'] := (fback _ hmem').2.2.1
        rw [hcv] at hcell2
        injection hcell2 with h1 _
        exact h1.symm
      rw [if_neg hny, if_neg hnx, spotAux_of_mem m.ents i j c hmem huniq]
      exact hcv
  apply List.ext_getElem
  · rw [List.length_map, gshape.1]
  · intro i h1 h2
    have hi : i < (Maze.toMatrix desc).length := h1
    have hgl : i < (Maze.renderGrid m).length := by rw [gshape.1]; exact hi
    have hri : (Maze.toMatrix desc)[i] ∈ Maze.toMatrix desc := List.getElem_mem h1
    have hrowD : (Maze.renderGrid m).getD i [] = (Maze.renderGrid m)[i] := getD_lt _ _ _ hgl
    apply List.ext_getElem
    · rw [List.getElem_map, List.length_map, flens _ hri, ← hrowD, gshape.2 i hi]
    · intro j hj1 hj2
      have hj : j < ((Maze.toMatrix desc).headD []).length := by
        rw [← flens _ hri]
        exact hj1
      have hrl : j < ((Maze.renderGrid m)[i]).length := by
        rw [← hrowD, gshape.2 i hi]
        exact hj
      have hp := hpoint i j hi hj
      rw [cellAt, getD_lt _ _ _ hi, getD_lt _ _ _ hj1] at hp
      have hval : gridGet (Maze.renderGrid m) i j = (Maze.renderGrid m)[i][j] := by
        unfold gridGet
        rw [hrowD]
        exact getD_lt _ _ _ hrl
      rw [hp, hval]
      simp only [List.getElem_map]

/-- C5: for a maze freshly obtained by Maze.unserialize from a well-formed
description (one that parses, with each spawn code appearing at most once),
serialization reproduces the description exactly, so unserializing the
serialization returns the very same maze data — same size, same entity tag at
every tile, same player-spawn table. -/
theorem C5_serialize_roundtrip (desc : List Char) (m : MazeData)
    (hX : spawnUnique (Maze.toMatrix desc) 'X')
    (hY : spawnUnique (Maze.toMatrix desc) 'Y')
    (hu : Maze.unserialize desc = Except.ok m) :
    Maze.serialize m = desc ∧
    Maze.unserialize (Maze.serialize m) = Except.ok m := by
  have hmtx := matrix_eq_render desc m hX hY hu
  have key : Maze.serialize m = desc := by
    unfold Maze.serialize
    have h1 : (Maze.renderGrid m).map (fun row => pyJoin Maze.SEP (row.map (fun c => [c]))) =
        ((Maze.renderGrid m).map (List.map (fun c => [c]))).map
          (fun cells => pyJoin Maze.SEP cells) := by
      rw [List.map_map]
      rfl
    rw [h1, ← hmtx]
    have h2 : (Maze.toMatrix desc).map (fun cells => pyJoin Maze.SEP cells) =
        pySplit nlChar desc := by
      rw [Maze.toMatrix, List.map_map]
      have h3 : ∀ l ∈ pySplit nlChar desc,
          ((fun cells => pyJoin Maze.SEP cells) ∘ pySplit Maze.SEP) l = l := by
        intro l _
        exact pyJoin_pySplit Maze.SEP l
      rw [List.map_congr_left h3]
      simp
    rw [h2, pyJoin_pySplit]
  exact ⟨key, by rw [key, hu]⟩

/-- The maze data parsed from the 2-by-2 description `X|B` newline `C|Y`. -/
def sampleMaze : MazeData :=
  { rows := 2, cols := 2, ents := [('B', 0, 1), ('C', 1, 0)],
    spawnX := some (0, 0), spawnY := some (1, 1) }

/-- Witness for C5: the 2-by-2 description `X|B` newline `C|Y`. -/
theorem C5_witness :
    Maze.serialize sampleMaze = ['X', '|', 'B', nlChar, 'C', '|', 'Y'] ∧
    Maze.unserialize (Maze.serialize sampleMaze) = Except.ok sampleMaze := by
  have hmtx0 : Maze.toMatrix ['X', '|', 'B', nlChar, 'C', '|', 'Y'] =
      [[['X'], ['B']], [['C'], ['Y']]] := by decide
  have hXpos : ∀ a b, cellAt [[['X'], ['B']], [['C'], ['Y']]] a b = ['X'] →
      a = 0 ∧ b = 0 := by
    intro a b h
    rcases a with _ | a
    · rcases b with _ | b
      · exact ⟨rfl, rfl⟩
      · rcases b with _ | b
        · exact absurd h (by decide)
        · simp [cellAt] at h
    · rcases a with _ | a
      · rcases b with _ | b
        · exact absurd h (by decide)
        · rcases b with _ | b
          · exact absurd h (by decide)
          · simp [cellAt] at h
      · simp [cellAt] at h
  have hYpos : ∀ a b, cellAt [[['X'], ['B']], [['C'], ['Y']]] a b = ['Y'] →
      a = 1 ∧ b = 1 := by
    intro a b h
    rcases a with _ | a
    · rcases b with _ | b
      · exact absurd h (by decide)
      · rcases b with _ | b
        · exact absurd h (by decide)
        · simp [cellAt] at h
    · rcases a with _ | a
      · rcases b with _ | b
        · exact absurd h (by decide)
        · rcases b with _ | b
          · exact ⟨rfl, rfl⟩
          · simp [cellAt] at h
      · simp [cellAt] at h
  have hX : spawnUnique (Maze.toMatrix ['X', '|', 'B', nlChar, 'C', '|', 'Y']) 'X' := by
    rw [hmtx0]
    intro a b a' b' h h'
    obtain ⟨ha, hb⟩ := hXpos a b h
    obtain ⟨ha', hb'⟩ := hXpos a' b' h'
    exact ⟨ha.trans ha'.symm, hb.trans hb'.symm⟩
  have hY : spawnUnique (Maze.toMatrix ['X', '|', 'B', nlChar, 'C', '|', 'Y']) 'Y' := by
    rw [hmtx0]
    intro a b a' b' h h'
    obtain ⟨ha, hb⟩ := hYpos a b h
    obtain ⟨ha', hb'⟩ := hYpos a' b' h'
    exact ⟨ha.trans ha'.symm, hb.trans hb'.symm⟩
  exact C5_serialize_roundtrip ['X', '|', 'B', nlChar, 'C', '|', 'Y'] _ hX hY (by decide)

/-! ### C4 — MovingEntity.move: integer positions and maze bounds -/

/-- `vector.Vector` restricted to 2D: a pair of coordinates. -/
abbrev Vec : Type := ℚ × ℚ

/-- `Vector.__add__` (componentwise). -/
def Vec.add (p q : Vec) : Vec := (p.1 + q.1, p.2 + q.2)

/-- `Vector.__sub__` (componentwise). -/
def Vec.sub (p q : Vec) : Vec := (p.1 - q.1, p.2 - q.2)

/-- Scalar multiplication `c * v` (componentwise). -/
def Vec.smul (c : ℚ) (p : Vec) : Vec := (c * p.1, c * p.2)

/-- `vector.Rect`: `x`, `y` from the position, `width`, `height` from the size. -/
structure Rect where
  x : ℚ
  y : ℚ
  width : ℚ
  height : ℚ
deriving DecidableEq, Repr

/-- `Rect.contains(other)`. -/
def Rect.contains (s o : Rect) : Bool :=
  decide (s.x ≤ o.x) && decide (s.y ≤ o.y) &&
  decide (o.x + o.width ≤ s.x + s.width) && decide (o.y + o.height ≤ s.y + s.height)

/-- `vector.Direction` members. -/
inductive Direction where
  | up
  | down
  | right
  | left
deriving DecidableEq, Repr

/-- The `vector` attribute of each `Direction` member. -/
def Direction.vec : Direction → Vec
  | Direction.up => (-1, 0)
  | Direction.down => (1, 0)
  | Direction.right => (0, 1)
  | Direction.left => (0, -1)

/-- `Direction.get_opposite_direction`. -/
def Direction.get_opposite_direction : Direction → Direction
  | Direction.up => Direction.down
  | Direction.down => Direction.up
  | Direction.right => Direction.left
  | Direction.left => Direction.right

/-- `Entity._build_colliding_rect(position, size)`:
`Rect(position + (size.apply(math.ceil) - size) * 0.5, size)`. -/
def Entity.build_colliding_rect (position size : Vec) : Rect :=
  { x := position.1 + ((⌈size.1⌉ : ℚ) - size.1) * (1 / 2)
    y := position.2 + ((⌈size.2⌉ : ℚ) - size.2) * (1 / 2)
    width := size.1
    height := size.2 }

/-- The static geometry a moving entity sees: the maze size (rows, columns)
and the entity's own `size`. -/
structure Geom where
  rows : ℚ
  cols : ℚ
  size : Vec

/-- `Maze.is_inside(rect)`: `Rect((0, 0), self.size).contains(rect)`. -/
def Maze.is_inside (g : Geom) (rect : Rect) : Bool :=
  Rect.contains { x := 0, y := 0, width := g.rows, height := g.cols } rect

/-- The view of the rest of the maze during one tick: whether a `BLOCKED_BY`
entity collides with a given rect, whether a `BOUNCE_ON` entity collides with
a given rect, and the teleporter table. The teleporter table is indexed by an
oracle cursor because teleporting mutates the teleporters. -/
structure TickEnv where
  blockedAt : Rect → Bool
  bounceAt : Rect → Bool
  tele : ℕ → Vec → Option Vec

/-- The movement-related state of a `MovingEntity`; `tc` is the oracle cursor
for the teleporter table. -/
structure MoveState where
  position : Vec
  prev_position : Vec
  next_position : Option Vec
  current_direction : Option Direction
  next_direction : Option Direction
  step : ℚ
  try_moving_since : ℚ
  is_still_since : ℚ
  speed : ℚ
  removing_timer : Timer
  tc : ℕ

/-- `MovingEntity.set_wanted_direction`. -/
def MovingEntity.set_wanted_direction (d : Option Direction) (s : MoveState) : MoveState :=
  { s with next_direction := d }

/-- `MovingEntity._valid_next_direction`: the target tile's rect must be inside
the maze and free of blocking entities, and a `0.1` probe from the current
position must not hit a bouncing entity. -/
def MovingEntity.valid_next_direction (g : Geom) (env : TickEnv) (s : MoveState)
    (d : Direction) : Bool :=
  let rect := Entity.build_colliding_rect (Vec.add s.position d.vec) g.size
  let rect2 := Entity.build_colliding_rect (Vec.add s.position (Vec.smul (1 / 10) d.vec)) g.size
  (Maze.is_inside g rect && !env.blockedAt rect) && !env.bounceAt rect2

/-- `MovingEntity.teleport`: standing on a teleporter with a destination, jump
there (`position` and `prev_position`), resetting `is_still_since`. -/
def MovingEntity.teleport (env : TickEnv) (s : MoveState) : MoveState :=
  match env.tele s.tc s.position with
  | none => { s with tc := s.tc + 1 }
  | some q => { s with position := q, prev_position := q, is_still_since := 0, tc := s.tc + 1 }

/-- `MovingEntity._switch_direction`: reverse the current direction, swap
`prev_position` and `next_position`, and mirror `step`. -/
def MovingEntity.switch_direction (s : MoveState) : MoveState :=
  match s.current_direction with
  | none => s
  | some d =>
      { s with current_direction := some (Direction.get_opposite_direction d),
               next_position := some s.prev_position,
               prev_position := (s.next_position).getD s.prev_position,
               step := 1 - s.step }

/-- The head of `MovingEntity.move`: when not mid-move, `_update_direction`
(the base class takes `next_direction`), and when that leaves no direction
while `try_moving_since` is non-zero, reset `try_moving_since`. -/
def MovingEntity.update_direction_phase (s : MoveState) : MoveState :=
  if s.next_position = none then
    if s.next_direction = none ∧ s.try_moving_since ≠ 0 then
      { s with current_direction := s.next_direction, try_moving_since := 0 }
    else
      { s with current_direction := s.next_direction }
  else s

/-- The commit step of `move`: when not mid-move and the current direction is
valid, set `next_position` to the adjacent tile. -/
def MovingEntity.try_commit (g : Geom) (env : TickEnv) (d : Direction) (s : MoveState) :
    MoveState :=
  if s.next_position = none then
    if MovingEntity.valid_next_direction g env s d then
      { s with next_position := some (Vec.add s.position d.vec) }
    else s
  else s

/-- `MovingEntity.move`, with an explicit fuel bounding the recursion depth:
fuel `0` returns the state unchanged, and any large enough fuel realises the
source recursion (which terminates because each recursive call consumes one
whole tile of the remaining advance). -/
def MovingEntity.move (g : Geom) (env : TickEnv) : ℕ → ℚ → MoveState → MoveState
  | 0, _, s => s
  | Nat.succ fuel, delay, s =>
    let s2 := MovingEntity.update_direction_phase
      { s with is_still_since := s.is_still_since + delay }
    match s2.current_direction with
    | none => s2
    | some d =>
      let s4 := MovingEntity.try_commit g env d
        { s2 with try_moving_since := s2.try_moving_since + delay }
      match s4.next_position with
      | none => if 1 < s4.is_still_since then MovingEntity.teleport env s4 else s4
      | some np =>
        let st := delay * s4.speed
        let s6 := { s4 with is_still_since := 0,
                            position := Vec.add s4.position (Vec.smul st d.vec),
                            step := s4.step + st }
        if 1 ≤ s6.step then
          MovingEntity.move g env fuel
            (if s6.speed = 0 then 0 else (s6.step - 1) / s6.speed)
            (MovingEntity.teleport env
              { s6 with position := np, step := 0, prev_position := np, next_position := none })
        else if env.bounceAt (Entity.build_colliding_rect s6.position g.size) then
          let s7 := { s6 with position := Vec.sub s6.position (Vec.smul st d.vec),
                              step := s6.step - st }
          if s7.next_direction ≠ some d then MovingEntity.switch_direction s7 else s7
        else s6

/-- `MovingEntity.update`: advance the removing timer when it is active,
otherwise move. -/
def MovingEntity.update (g : Geom) (env : TickEnv) (fuel : ℕ) (delay : ℚ)
    (s : MoveState) : MoveState :=
  if s.removing_timer.is_active then
    { s with removing_timer := (s.removing_timer.update delay).2 }
  else
    MovingEntity.move g env fuel delay s

/-- One outside interaction with a moving entity: a tick (with its view of the
maze for that tick) or a wanted-direction change. -/
inductive MoveAct where
  | update (fuel : ℕ) (delay : ℚ) (env : TickEnv)
  | set_wanted_direction (d : Option Direction)

/-- Apply one interaction. -/
def MoveAct.apply (g : Geom) : MoveAct → MoveState → MoveState
  | MoveAct.update fuel delay env, s => MovingEntity.update g env fuel delay s
  | MoveAct.set_wanted_direction d, s => MovingEntity.set_wanted_direction d s

/-- Run a sequence of interactions. -/
def runActs (g : Geom) : List MoveAct → MoveState → MoveState
  | [], s => s
  | a :: rest, s => runActs g rest (MoveAct.apply g a s)

/-- Both coordinates are integers. -/
def VecIsInt (v : Vec) : Prop := (∃ a : ℤ, v.1 = (a : ℚ)) ∧ (∃ b : ℤ, v.2 = (b : ℚ))

/-- The entity's colliding rect at position `v` is inside the maze. -/
def InsideP (g : Geom) (v : Vec) : Prop :=
  Maze.is_inside g (Entity.build_colliding_rect v g.size) = true

/-- The movement invariant: non-negative speed; when not mid-move, the position
is an integer tile equal to `prev_position`, `step = 0` and the colliding rect
is inside the maze; mid-move, both endpoints are integer tiles whose rects are
inside the maze, `step ∈ [0, 1]`, the target is one `current_direction` step
from `prev_position`, and the position is the `step`-interpolation between the
two endpoints. -/
def MoveInv (g : Geom) (s : MoveState) : Prop :=
  0 ≤ s.speed ∧
  match s.next_position with
  | none =>
      s.step = 0 ∧ s.position = s.prev_position ∧ VecIsInt s.position ∧ InsideP g s.position
  | some np =>
      VecIsInt s.prev_position ∧ VecIsInt np ∧
      InsideP g s.prev_position ∧ InsideP g np ∧
      0 ≤ s.step ∧ s.step ≤ 1 ∧
      (∃ d, s.current_direction = some d ∧
        np.1 = s.prev_position.1 + d.vec.1 ∧ np.2 = s.prev_position.2 + d.vec.2) ∧
      s.position.1 = s.prev_position.1 + s.step * (np.1 - s.prev_position.1) ∧
      s.position.2 = s.prev_position.2 + s.step * (np.2 - s.prev_position.2)

/-- Every teleporter destination is an integer tile whose rect is inside. -/
def TeleOK (g : Geom) (env : TickEnv) : Prop :=
  ∀ n p q, env.tele n p = some q → VecIsInt q ∧ InsideP g q

/-- Every tick of a sequence has a non-negative delay and well-placed
teleporter destinations. -/
def ActsOK (g : Geom) : List MoveAct → Prop
  | [] => True
  | MoveAct.update _ delay env :: rest => 0 ≤ delay ∧ TeleOK g env ∧ ActsOK g rest
  | MoveAct.set_wanted_direction _ :: rest => ActsOK g rest

theorem MoveInv_of_eq (g : Geom) {s t : MoveState} (h : MoveInv g s)
    (h1 : t.position = s.position) (h2 : t.prev_position = s.prev_position)
    (h3 : t.next_position = s.next_position)
    (h4 : t.current_direction = s.current_direction)
    (h5 : t.step = s.step) (h6 : t.speed = s.speed) : MoveInv g t := by
  unfold MoveInv at h ⊢
  rw [h1, h2, h3, h4, h5, h6]
  exact h

theorem Direction.vec_int (d : Direction) : VecIsInt d.vec := by
  cases d
  · exact ⟨⟨-1, by norm_num [Direction.vec]⟩, ⟨0, by norm_num [Direction.vec]⟩⟩
  · exact ⟨⟨1, by norm_num [Direction.vec]⟩, ⟨0, by norm_num [Direction.vec]⟩⟩
  · exact ⟨⟨0, by norm_num [Direction.vec]⟩, ⟨1, by norm_num [Direction.vec]⟩⟩
  · exact ⟨⟨0, by norm_num [Direction.vec]⟩, ⟨-1, by norm_num [Direction.vec]⟩⟩

theorem Direction.opposite_vec (d : Direction) :
    (Direction.get_opposite_direction d).vec.1 = -d.vec.1 ∧
    (Direction.get_opposite_direction d).vec.2 = -d.vec.2 := by
  cases d <;> norm_num [Direction.get_opposite_direction, Direction.vec]

theorem VecIsInt.add {p q : Vec} (hp : VecIsInt p) (hq : VecIsInt q) :
    VecIsInt (Vec.add p q) := by
  obtain ⟨⟨a, ha⟩, ⟨b, hb⟩⟩ := hp
  obtain ⟨⟨c, hc⟩, ⟨e, he⟩⟩ := hq
  exact ⟨⟨a + c, by simp [Vec.add, ha, hc]⟩, ⟨b + e, by simp [Vec.add, hb, he]⟩⟩

theorem InsideP_congr (g : Geom) {v w : Vec} (h1 : v.1 = w.1) (h2 : v.2 = w.2)
    (h : InsideP g w) : InsideP g v := by
  unfold InsideP Entity.build_colliding_rect at h ⊢
  rw [h1, h2]
  exact h

theorem InsideP_interp (g : Geom) {p q : Vec} {t : ℚ}
    (hp : InsideP g p) (hq : InsideP g q) (h0 : 0 ≤ t) (h1 : t ≤ 1) :
    InsideP g (p.1 + t * (q.1 - p.1), p.2 + t * (q.2 - p.2)) := by
  unfold InsideP Maze.is_inside Rect.contains Entity.build_colliding_rect at hp hq ⊢
  simp only [Bool.and_eq_true, decide_eq_true_eq, and_assoc] at hp hq ⊢
  obtain ⟨hp1, hp2, hp3, hp4⟩ := hp
  obtain ⟨hq1, hq2, hq3, hq4⟩ := hq
  refine ⟨?_, ?_, ?_, ?_⟩
  · nlinarith [mul_nonneg h0 hq1, mul_nonneg (sub_nonneg.2 h1) hp1]
  · nlinarith [mul_nonneg h0 hq2, mul_nonneg (sub_nonneg.2 h1) hp2]
  · nlinarith [mul_nonneg h0 (sub_nonneg.2 hq3), mul_nonneg (sub_nonneg.2 h1) (sub_nonneg.2 hp3)]
  · nlinarith [mul_nonneg h0 (sub_nonneg.2 hq4), mul_nonneg (sub_nonneg.2 h1) (sub_nonneg.2 hp4)]

theorem teleport_inv {g : Geom} {env : TickEnv} {s : MoveState}
    (hT : TeleOK g env) (h : MoveInv g s) (hn : s.next_position = none) :
    MoveInv g (MovingEntity.teleport env s) := by
  unfold MovingEntity.teleport
  cases ht : env.tele s.tc s.position with
  | none => exact MoveInv_of_eq g h rfl rfl rfl rfl rfl rfl
  | some q =>
      obtain ⟨hq1, hq2⟩ := hT _ _ _ ht
      simp only [MoveInv, hn] at h ⊢
      exact ⟨h.1, h.2.1, trivial, hq1, hq2⟩

theorem update_direction_phase_inv {g : Geom} {s : MoveState} (h : MoveInv g s) :
    MoveInv g (MovingEntity.update_direction_phase s) := by
  unfold MovingEntity.update_direction_phase
  by_cases hn : s.next_position = none
  · rw [if_pos hn]
    by_cases hc : s.next_direction = none ∧ s.try_moving_since ≠ 0
    · rw [if_pos hc]
      simp only [MoveInv, hn] at h ⊢
      exact h
    · rw [if_neg hc]
      simp only [MoveInv, hn] at h ⊢
      exact h
  · rw [if_neg hn]
    exact h

theorem try_commit_cases (g : Geom) (env : TickEnv) (d : Direction) (s : MoveState) :
    MovingEntity.try_commit g env d s = s ∨
    (s.next_position = none ∧ MovingEntity.valid_next_direction g env s d = true ∧
      MovingEntity.try_commit g env d s =
        { s with next_position := some (Vec.add s.position d.vec) }) := by
  unfold MovingEntity.try_commit
  by_cases hn : s.next_position = none
  · rw [if_pos hn]
    cases hv : MovingEntity.valid_next_direction g env s d with
    | false => left; simp [hv]
    | true => right; simp [hn, hv]
  · rw [if_neg hn]
    left
    rfl

theorem valid_next_direction_inside {g : Geom} {env : TickEnv} {s : MoveState} {d : Direction}
    (h : MovingEntity.valid_next_direction g env s d = true) :
    InsideP g (Vec.add s.position d.vec) := by
  unfold MovingEntity.valid_next_direction at h
  simp only [Bool.and_eq_true] at h
  exact h.1.1

theorem try_commit_current (g : Geom) (env : TickEnv) (d : Direction) (s : MoveState) :
    (MovingEntity.try_commit g env d s).current_direction = s.current_direction := by
  rcases try_commit_cases g env d s with he | ⟨_, _, he⟩ <;> rw [he]

theorem try_commit_inv {g : Geom} {env : TickEnv} {d : Direction} {s : MoveState}
    (hcd : s.current_direction = some d) (h : MoveInv g s) :
    MoveInv g (MovingEntity.try_commit g env d s) := by
  rcases try_commit_cases g env d s with he | ⟨hn, hv, he⟩
  · rw [he]; exact h
  · rw [he]
    simp only [MoveInv, hn] at h
    obtain ⟨hsp, hst, hpp, hint, hin⟩ := h
    simp only [MoveInv]
    refine ⟨hsp, ?_, ?_, ?_, ?_, ?_, ?_, ⟨d, hcd, ?_, ?_⟩, ?_, ?_⟩
    · rw [← hpp]; exact hint
    · exact VecIsInt.add hint (Direction.vec_int d)
    · rw [← hpp]; exact hin
    · exact valid_next_direction_inside hv
    · simp [hst]
    · simp [hst]
    · simp only [Vec.add]; rw [hpp]
    · simp only [Vec.add]; rw [hpp]
    · rw [hst, hpp]; ring
    · rw [hst, hpp]; ring

theorem switch_direction_inv {g : Geom} {s : MoveState} {d : Direction} {np : Vec}
    (hcd : s.current_direction = some d) (hnp : s.next_position = some np)
    (h : MoveInv g s) : MoveInv g (MovingEntity.switch_direction s) := by
  unfold MovingEntity.switch_direction
  simp only [hcd]
  simp only [MoveInv, hnp] at h
  obtain ⟨hsp, hIprev, hInp, hSprev, hSnp, h0, h1, hex, h5, h6⟩ := h
  obtain ⟨d', hd', h3, h4⟩ := hex
  rw [hcd] at hd'
  injection hd' with hdd
  subst hdd
  simp only [MoveInv, hnp, Option.getD_some]
  refine ⟨hsp, hInp, hIprev, hSnp, hSprev, by linarith, by linarith,
    ⟨Direction.get_opposite_direction d, rfl, ?_, ?_⟩, ?_, ?_⟩
  · rw [(Direction.opposite_vec d).1, h3]; ring
  · rw [(Direction.opposite_vec d).2, h4]; ring
  · rw [h5, h3]; ring
  · rw [h6, h4]; ring

theorem move_inv {g : Geom} {env : TickEnv} (hT : TeleOK g env) :
    ∀ (fuel : ℕ) (delay : ℚ) (s : MoveState), 0 ≤ delay → MoveInv g s →
      MoveInv g (MovingEntity.move g env fuel delay s) := by
  intro fuel
  induction fuel with
  | zero =>
    intro delay s _ h
    exact h
  | succ n ih =>
    intro delay s hd h
    simp only [MovingEntity.move]
    have hA : MoveInv g { s with is_still_since := s.is_still_since + delay } :=
      MoveInv_of_eq g h rfl rfl rfl rfl rfl rfl
    have h2 : MoveInv g (MovingEntity.update_direction_phase
        { s with is_still_since := s.is_still_since + delay }) :=
      update_direction_phase_inv hA
    set s2 := MovingEntity.update_direction_phase
      { s with is_still_since := s.is_still_since + delay } with hs2
    obtain ⟨cd, hcd⟩ : ∃ cd, s2.current_direction = cd := ⟨_, rfl⟩
    cases cd with
    | none =>
      simp only [hcd]
      exact h2
    | some d =>
      simp only [hcd]
      have h3 : MoveInv g
          { s2 with
            current_direction := some d,
            try_moving_since := s2.try_moving_since + delay } :=
        MoveInv_of_eq g h2 rfl rfl rfl hcd.symm rfl rfl
      have h4 : MoveInv g (MovingEntity.try_commit g env d
          { s2 with
            current_direction := some d,
            try_moving_since := s2.try_moving_since + delay }) :=
        try_commit_inv rfl h3
      set s4 := MovingEntity.try_commit g env d
        { s2 with
          current_direction := some d,
          try_moving_since := s2.try_moving_since + delay } with hs4
      have hcd4 : s4.current_direction = some d := try_commit_current g env d _
      obtain ⟨nx, hnp⟩ : ∃ nx, s4.next_position = nx := ⟨_, rfl⟩
      cases nx with
      | none =>
        simp only [hnp]
        by_cases hstill : 1 < s4.is_still_since
        · rw [if_pos hstill]
          exact teleport_inv hT h4 hnp
        · rw [if_neg hstill]
          exact h4
      | some np =>
        simp only [hnp]
        simp only [MoveInv, hnp] at h4
        obtain ⟨hsp, hIprev, hInp, hSprev, hSnp, hst0, hst1, hex, hpos1, hpos2⟩ := h4
        obtain ⟨d', hd', hnp1, hnp2⟩ := hex
        rw [hcd4] at hd'
        injection hd' with hdd
        subst hdd
        have hstnn : 0 ≤ delay * s4.speed := mul_nonneg hd hsp
        by_cases hsnap : 1 ≤ s4.step + delay * s4.speed
        · rw [if_pos hsnap]
          have hsnapInv : MoveInv g
              { s4 with
                is_still_since := (0 : ℚ), position := np, step := (0 : ℚ),
                prev_position := np, next_position := none } :=
            ⟨hsp, rfl, rfl, hInp, hSnp⟩
          have hrem : 0 ≤ (if s4.speed = 0 then (0 : ℚ)
              else (s4.step + delay * s4.speed - 1) / s4.speed) := by
            by_cases hz : s4.speed = 0
            · rw [if_pos hz]
            · rw [if_neg hz]
              have hpos : 0 < s4.speed := lt_of_le_of_ne hsp (Ne.symm hz)
              have hnum : (0 : ℚ) ≤ s4.step + delay * s4.speed - 1 := by linarith
              exact div_nonneg hnum (le_of_lt hpos)
          exact ih _ _ hrem (teleport_inv hT hsnapInv rfl)
        · rw [if_neg hsnap]
          have h6 : MoveInv g
              { s4 with
                next_position := some np,
                is_still_since := (0 : ℚ),
                position := Vec.add s4.position (Vec.smul (delay * s4.speed) d.vec),
                step := s4.step + delay * s4.speed } := by
            simp only [MoveInv, hnp]
            refine ⟨hsp, hIprev, hInp, hSprev, hSnp, by linarith, by linarith,
              ⟨d, hcd4, hnp1, hnp2⟩, ?_, ?_⟩
            · simp only [Vec.add, Vec.smul]
              rw [hpos1, hnp1]; ring
            · simp only [Vec.add, Vec.smul]
              rw [hpos2, hnp2]; ring
          by_cases hbb : env.bounceAt (Entity.build_colliding_rect
              (Vec.add s4.position (Vec.smul (delay * s4.speed) d.vec)) g.size) = true
          · rw [if_pos hbb]
            have h7 : MoveInv g
                { s4 with
                  next_position := some np,
                  is_still_since := (0 : ℚ),
                  position := Vec.sub (Vec.add s4.position (Vec.smul (delay * s4.speed) d.vec))
                    (Vec.smul (delay * s4.speed) d.vec),
                  step := s4.step + delay * s4.speed - delay * s4.speed } := by
              simp only [MoveInv, hnp]
              refine ⟨hsp, hIprev, hInp, hSprev, hSnp, by linarith, by linarith,
                ⟨d, hcd4, hnp1, hnp2⟩, ?_, ?_⟩
              · simp only [Vec.add, Vec.sub, Vec.smul]
                rw [hpos1]; ring
              · simp only [Vec.add, Vec.sub, Vec.smul]
                rw [hpos2]; ring
            by_cases hnd : s4.next_direction ≠ some d
            · rw [if_pos hnd]
              exact switch_direction_inv hcd4 rfl h7
            · rw [if_neg hnd]
              exact h7
          · rw [if_neg hbb]
            exact h6

theorem MovingEntity.update_inv {g : Geom} {env : TickEnv} {fuel : ℕ} {delay : ℚ}
    {s : MoveState} (hT : TeleOK g env) (hd : 0 ≤ delay) (h : MoveInv g s) :
    MoveInv g (MovingEntity.update g env fuel delay s) := by
  unfold MovingEntity.update
  by_cases hr : s.removing_timer.is_active = true
  · rw [if_pos hr]
    exact MoveInv_of_eq g h rfl rfl rfl rfl rfl rfl
  · rw [if_neg hr]
    exact move_inv hT fuel delay s hd h

theorem runActs_inv {g : Geom} : ∀ (acts : List MoveAct) (s : MoveState),
    ActsOK g acts → MoveInv g s → MoveInv g (runActs g acts s) := by
  intro acts
  induction acts with
  | nil =>
    intro s _ h
    exact h
  | cons a rest ih =>
    intro s hok h
    cases a with
    | update fuel delay env =>
      replace hok : 0 ≤ delay ∧ TeleOK g env ∧ ActsOK g rest := hok
      obtain ⟨hd, hT, hrest⟩ := hok
      exact ih _ hrest (MovingEntity.update_inv hT hd h)
    | set_wanted_direction d =>
      replace hok : ActsOK g rest := hok
      exact ih _ hok (MoveInv_of_eq g h rfl rfl rfl rfl rfl rfl)

/-- **C4**: for every moving entity, across any sequence of `update(delta)`
calls with `delta >= 0` (and wanted-direction changes), starting from a
well-formed state (in particular a freshly spawned entity on an integer tile
inside the maze) and with teleporter destinations on integer tiles inside the
maze: the movement invariant is preserved; whenever `next_position` is `None`
the position has exactly integer coordinates; the colliding rect never lies
outside the maze bounds; and `_valid_next_direction` accepts a direction only
when the destination tile's rect is inside the maze, so movement into a tile
is committed only when the destination rect is inside the maze. -/
theorem C4_moving_entity (g : Geom) (acts : List MoveAct) (s0 : MoveState)
    (hacts : ActsOK g acts) (h0 : MoveInv g s0) :
    MoveInv g (runActs g acts s0) ∧
    ((runActs g acts s0).next_position = none → VecIsInt (runActs g acts s0).position) ∧
    InsideP g (runActs g acts s0).position ∧
    (∀ env s d, MovingEntity.valid_next_direction g env s d = true →
      Maze.is_inside g (Entity.build_colliding_rect (Vec.add s.position d.vec) g.size) = true) := by
  have hinv := runActs_inv acts s0 hacts h0
  refine ⟨hinv, ?_, ?_, ?_⟩
  · intro hn
    have hinv' := hinv
    simp only [MoveInv, hn] at hinv'
    exact hinv'.2.2.2.1
  · obtain ⟨nx, hn⟩ : ∃ nx, (runActs g acts s0).next_position = nx := ⟨_, rfl⟩
    cases nx with
    | none =>
      simp only [MoveInv, hn] at hinv
      obtain ⟨-, -, hpp, -, hin⟩ := hinv
      exact hin
    | some np =>
      simp only [MoveInv, hn] at hinv
      obtain ⟨-, hIprev, hInp, hSprev, hSnp, hst0, hst1, hex, hp1, hp2⟩ := hinv
      exact InsideP_congr g hp1 hp2 (InsideP_interp g hSprev hSnp hst0 hst1)
  · intro env s d hv
    exact valid_next_direction_inside hv

/-- A 3-by-3 maze geometry for a size-(1,1) entity. -/
def c4geom : Geom := { rows := 3, cols := 3, size := (1, 1) }

/-- An obstacle-free tick environment with no teleporters. -/
def c4env : TickEnv :=
  { blockedAt := fun _ => false, bounceAt := fun _ => false, tele := fun _ _ => none }

/-- A freshly spawned moving entity at tile (1, 1). -/
def c4start : MoveState :=
  { position := (1, 1), prev_position := (1, 1), next_position := none,
    current_direction := none, next_direction := none, step := 0,
    try_moving_since := 0, is_still_since := 0, speed := 4,
    removing_timer := Timer.init false, tc := 0 }

/-- Ask to go right, then tick an eighth of a second. -/
def c4acts : List MoveAct :=
  [MoveAct.set_wanted_direction (some Direction.right), MoveAct.update 2 (1 / 8) c4env]

/-- Witness for C4: the movement invariant conclusions at a concrete entity,
maze and tick sequence. -/
theorem C4_witness :
    ActsOK c4geom c4acts ∧ MoveInv c4geom c4start ∧
    (MoveInv c4geom (runActs c4geom c4acts c4start) ∧
     ((runActs c4geom c4acts c4start).next_position = none →
       VecIsInt (runActs c4geom c4acts c4start).position) ∧
     InsideP c4geom (runActs c4geom c4acts c4start).position ∧
     (∀ env s d, MovingEntity.valid_next_direction c4geom env s d = true →
       Maze.is_inside c4geom
         (Entity.build_colliding_rect (Vec.add s.position d.vec) c4geom.size) = true)) := by
  have hT : TeleOK c4geom c4env := by
    intro n p q hq
    simp [c4env] at hq
  have hacts : ActsOK c4geom c4acts := ⟨by norm_num, hT, trivial⟩
  have hstart : MoveInv c4geom c4start := by
    refine ⟨by norm_num [c4start], ?_⟩
    simp only [c4start]
    refine ⟨trivial, trivial, ⟨⟨1, by norm_num⟩, ⟨1, by norm_num⟩⟩, ?_⟩
    simp only [InsideP, Maze.is_inside, Rect.contains, Entity.build_colliding_rect, c4geom,
      Bool.and_eq_true, decide_eq_true_eq]
    norm_num
  exact ⟨hacts, hstart, C4_moving_entity c4geom c4acts c4start hacts hstart⟩
